import Mathlib

/-!
# Verification of the paper-database ingestion pipeline

Shallow embedding of the TypeScript sources of `sofies-verden/paper_database`
(`src/utils/deduplication.ts`, `src/utils/parseResearch.ts`,
`src/services/recommendation.ts` / `paperApi`, `scripts/add-papers.ts`)
together with theorems settling the specification claims about them.

Conventions used throughout the embedding:
* JavaScript strings are modelled by `String` / `List Char`; `toLowerCase` is
  modelled by `Char.toLower` (ASCII case mapping, which agrees with JS on the
  ASCII inputs the pipeline handles), and the `\s` / `\w` regex classes by
  `Char.isWhitespace` and ASCII alphanumerics plus underscore.
* JS numbers appearing as similarity scores are modelled by `Rat` (exact
  arithmetic in place of IEEE doubles); integer counters by `Nat`.
* Optional / possibly-`undefined` fields are modelled by `Option`; JS
  truthiness of an optional string (`undefined` and `""` are falsy) is
  modelled by `jsTruthy`.
* Asynchronous code (`withRetry`, `enrichPapers`) is modelled by pure
  functions over an explicit sequence of attempt outcomes / a per-paper
  enrichment function, recording the performed sleeps, progress callbacks and
  inter-batch delays in an explicit trace.
-/

namespace PaperDB

/-- JS truthiness of an optional string: `undefined` and `""` are falsy.
`jsTruthy o = some s` exactly when the field is present and non-empty. -/
def jsTruthy (o : Option String) : Option String :=
  match o with
  | none => none
  | some s => if s = "" then none else some s

/-- The `\w` regex class of JavaScript: ASCII letters, digits and underscore. -/
def isWordChar (c : Char) : Bool :=
  ('a' ≤ c && c ≤ 'z') || ('A' ≤ c && c ≤ 'Z') || ('0' ≤ c && c ≤ '9') || c = '_'

/-- Drop leading and trailing whitespace from a character list
(models `String.prototype.trim`). -/
def trimChars (l : List Char) : List Char :=
  ((l.dropWhile Char.isWhitespace).reverse.dropWhile Char.isWhitespace).reverse

/-- Collapse every maximal run of whitespace characters into a single space
(models `.replace(/\s+/g, ' ')`).  The boolean flag records whether the
previous character belonged to a whitespace run. -/
def collapseWS : Bool → List Char → List Char
  | _, [] => []
  | prevWS, c :: rest =>
    if c.isWhitespace then
      if prevWS then collapseWS true rest
      else ' ' :: collapseWS true rest
    else c :: collapseWS false rest

/-- Title normalisation used by `calculateTitleSimilarity`
(`deduplication.ts` lines 62-66): lower-case, remove every character that is
neither a word character nor whitespace (`.replace(/[^\w\s]/g, '')`),
collapse whitespace runs to single spaces, and trim. -/
def normalizeTitle (s : String) : String :=
  let lowered := s.data.map Char.toLower
  let kept := lowered.filter (fun c => isWordChar c || c.isWhitespace)
  ⟨trimChars (collapseWS false kept)⟩

/-- Reference recurrence for the Levenshtein dynamic program:
`levIdx a b i j` is the value the DP matrix of `levenshteinDistance`
(`deduplication.ts` lines 27-54) stores at cell `(i, j)`, i.e. the edit
distance between the length-`i` prefix of `a` and the length-`j` prefix of
`b`.  Cell `(i+1, j+1)` compares `a[i]` with `b[j]` exactly as the source
does (`a[i - 1] === b[j - 1]` with 1-based indices). -/
def levIdx (a b : List Char) : Nat → Nat → Nat
  | 0, j => j
  | i + 1, 0 => i + 1
  | i + 1, j + 1 =>
    if a.getD i ' ' = b.getD j ' ' then levIdx a b i j
    else min (levIdx a b i j) (min (levIdx a b (i + 1) j) (levIdx a b i (j + 1))) + 1

/-- One inner step of the row update of the Levenshtein dynamic program.
Given the current character `x` of `a`, the remaining characters `ys` of `b`,
the previous row starting at column `j - 1` (`pjm1 :: pj :: …`) and the value
`left` just computed for column `j - 1` of the new row, produce the values of
the new row from column `j` on.  Mirrors the inner `for j` loop of
`levenshteinDistance`. -/
def levRowAux (x : Char) : List Char → List Nat → Nat → List Nat
  | [], _, _ => []
  | _ :: _, [], _ => []
  | _ :: _, [_], _ => []
  | y :: ys, pjm1 :: pj :: ps, left =>
    let nj := if x = y then pjm1 else min pjm1 (min left pj) + 1
    nj :: levRowAux x ys (pj :: ps) nj

/-- Row `i + 1` of the DP matrix from row `i` (`prev`); the leading entry is
the row index `i + 1` (`matrix[i] = [i]` initialisation in the source). -/
def levNewRow (x : Char) (b : List Char) (prev : List Nat) (i1 : Nat) : List Nat :=
  i1 :: levRowAux x b prev i1

/-- Levenshtein distance via the dynamic-programming matrix, translated from
`levenshteinDistance` (`deduplication.ts` lines 27-54): row 0 is
`[0, 1, …, |b|]`, each later row is produced by `levNewRow`, and the result
is the last entry of the last row (`matrix[a.length][b.length]`). -/
def levenshteinDistance (a b : List Char) : Nat :=
  let row0 := List.range (b.length + 1)
  let final := a.foldl
    (fun (st : List Nat × Nat) x => (levNewRow x b st.1 (st.2 + 1), st.2 + 1))
    (row0, 0)
  final.1.getLastD 0

/-- Similarity score of `calculateTitleSimilarity`
(`deduplication.ts` lines 60-78): normalise both titles; equal normal forms
score 1; if either normal form is empty the score is 0; otherwise
`1 - distance / max(length, length)`, computed in exact rational
arithmetic. -/
def calculateTitleSimilarity (title1 title2 : String) : Rat :=
  let t1 := (normalizeTitle title1).data
  let t2 := (normalizeTitle title2).data
  if t1 = t2 then 1
  else if t1.length = 0 ∨ t2.length = 0 then 0
  else 1 - (levenshteinDistance t1 t2 : Rat) / (max t1.length t2.length : Nat)

/-- DOI normalisation (`deduplication.ts` lines 83-85): lower-case, strip one
leading `http://doi.org/` or `https://doi.org/` prefix
(`.replace(/^https?:\/\/doi\.org\//i, '')` applied to the lower-cased
string), and trim. -/
def normalizeDOI (doi : String) : String :=
  let low := doi.data.map Char.toLower
  let httpsPre := "https://doi.org/".data
  let httpPre := "http://doi.org/".data
  let stripped :=
    if httpsPre.isPrefixOf low then low.drop httpsPre.length
    else if httpPre.isPrefixOf low then low.drop httpPre.length
    else low
  ⟨trimChars stripped⟩

/-- arXiv-ID normalisation (`deduplication.ts` lines 90-92): lower-case,
strip a trailing version suffix `v<digits>` (`.replace(/v\d+$/, '')`), and
trim.  The suffix test reverses the string: a non-empty run of digits at the
end immediately preceded by `v` is removed together with the `v`. -/
def normalizeArxivId (arxivId : String) : String :=
  let low := arxivId.data.map Char.toLower
  let r := low.reverse
  let ds := r.takeWhile Char.isDigit
  let stripped :=
    if ds ≠ [] ∧ (r.drop ds.length).head? = some 'v' then
      (r.drop (ds.length + 1)).reverse
    else low
  ⟨trimChars stripped⟩

/-- Reading status enumeration (`types.ts`). -/
inductive ReadingStatus where
  | toRead | reading | read | posted
deriving DecidableEq, Repr

/-- Journal / venue information (`types.ts`). -/
structure Journal where
  name : String
  issn : Option String := none
  hIndex : Option Nat := none
  twoYearCitedness : Option Rat := none
deriving DecidableEq, Repr

/-- Persisted paper record (`types.ts`, interface `Paper`); fields not
consulted by the verified operations (tweet management, deprecated aliases)
are omitted. -/
structure Paper where
  id : String
  title : String
  authors : List String
  year : Nat
  doi : Option String := none
  url : Option String := none
  abstract : Option String := none
  tags : List String := []
  status : ReadingStatus := .toRead
  addedDate : String := ""
  citationCount : Option Nat := none
  influentialCitations : Option Nat := none
  journal : Option Journal := none
deriving DecidableEq, Repr

/-- Candidate paper produced by extraction (`parseResearch.ts`, interface
`ExtractedPaper`). -/
structure ExtractedPaper where
  title : String
  authors : List String
  year : Option Nat := none
  doi : Option String := none
  arxivId : Option String := none
  url : Option String := none
  abstract : Option String := none
deriving DecidableEq, Repr

/-- Match rule of a duplicate verdict (`deduplication.ts`, field
`matchType`). -/
inductive MatchType where
  | doi | arxiv | title
deriving DecidableEq, Repr

/-- Result of a single duplicate check (`deduplication.ts`, interface
`DuplicateCheckResult`). -/
structure DuplicateCheckResult where
  isDuplicate : Bool
  matchType : Option MatchType := none
  matchedPaper : Option Paper := none
  similarity : Option Rat := none
deriving DecidableEq, Repr

/-- Recover an arXiv id from a stored URL: models
`existing.url?.match(/arxiv\.org\/(?:abs|pdf)\/(\d{4}\.\d{4,5})/i)`
(`deduplication.ts` line 122).  `parseArxivNum` matches the capture group
`\d{4}\.\d{4,5}` (greedy: five digits if available, else four). -/
def parseArxivNum (s : List Char) : Option (List Char) :=
  let d4 := s.take 4
  if d4.length = 4 ∧ d4.all Char.isDigit ∧ s.getD 4 ' ' = '.' then
    let ds := (s.drop 5).takeWhile Char.isDigit
    if ds.length ≥ 5 then some (d4 ++ '.' :: ds.take 5)
    else if ds.length = 4 then some (d4 ++ '.' :: ds)
    else none
  else none

/-- Try to match `arxiv\.org\/(?:abs|pdf)\/(\d{4}\.\d{4,5})` at the head of
an (already lower-cased) character list, returning the capture group. -/
def arxivUrlHere (s : List Char) : Option (List Char) :=
  let absPre := "arxiv.org/abs/".data
  let pdfPre := "arxiv.org/pdf/".data
  if absPre.isPrefixOf s then parseArxivNum (s.drop absPre.length)
  else if pdfPre.isPrefixOf s then parseArxivNum (s.drop pdfPre.length)
  else none

/-- Scan of the regex search: try the pattern at every position, leftmost
match wins. -/
def findArxivScan : List Char → Option (List Char)
  | [] => none
  | c :: rest =>
    match arxivUrlHere (c :: rest) with
    | some id => some id
    | none => findArxivScan rest

/-- Extract the first arXiv id embedded in a URL (case-insensitive search,
capture group of the regex at `deduplication.ts` line 122). -/
def findArxivInUrl (url : String) : Option String :=
  (findArxivScan (url.data.map Char.toLower)).map (fun l => ⟨l⟩)

/-- Does existing paper `e` match candidate DOI `nd` (already normalised)?
Models `existing.doi && normalizeDOI(existing.doi) === normalizedNewDOI`
(`deduplication.ts` line 106); an absent or empty `doi` field is falsy. -/
def doiMatches (nd : String) (e : Paper) : Bool :=
  match jsTruthy e.doi with
  | some ed => normalizeDOI ed = nd
  | none => false

/-- Does existing paper `e` match candidate arXiv id `na` (already
normalised)?  The existing side's id is recovered from its stored URL
(`deduplication.ts` lines 121-133). -/
def arxivMatches (na : String) (e : Paper) : Bool :=
  match e.url.bind findArxivInUrl with
  | some found => normalizeArxivId found = na
  | none => false

/-- Duplicate check of one candidate against an existing corpus, translated
from `checkDuplicate` (`deduplication.ts` lines 97-151).  Rules are tried in
order: (1) exact normalised DOI match, (2) exact normalised arXiv-id match
(the existing side's id recovered from its URL), (3) first existing title
with similarity `≥ titleThreshold`.  The first matching rule is the terminal
verdict. -/
def checkDuplicate (newPaper : ExtractedPaper) (existingPapers : List Paper)
    (titleThreshold : Rat := 9 / 10) : DuplicateCheckResult :=
  let doiHit :=
    match jsTruthy newPaper.doi with
    | some d => existingPapers.find? (doiMatches (normalizeDOI d))
    | none => none
  match doiHit with
  | some e => ⟨true, some .doi, some e, some 1⟩
  | none =>
    let arxivHit :=
      match jsTruthy newPaper.arxivId with
      | some a => existingPapers.find? (arxivMatches (normalizeArxivId a))
      | none => none
    match arxivHit with
    | some e => ⟨true, some .arxiv, some e, some 1⟩
    | none =>
      match existingPapers.find?
          (fun e => calculateTitleSimilarity newPaper.title e.title ≥ titleThreshold) with
      | some e =>
        ⟨true, some .title, some e, some (calculateTitleSimilarity newPaper.title e.title)⟩
      | none => ⟨false, none, none, none⟩

/-- Report of a batch duplicate check (`deduplication.ts`, interface
`DeduplicationReport`). -/
structure DeduplicationReport where
  newPapers : List ExtractedPaper
  duplicates : List (ExtractedPaper × DuplicateCheckResult)
deriving DecidableEq, Repr

/-- Batch-internal title key: `paper.title.toLowerCase().trim()`
(`deduplication.ts` line 173). -/
def titleKey (s : String) : String :=
  ⟨trimChars (s.data.map Char.toLower)⟩

/-- Recursive worker of `checkDuplicates` (`deduplication.ts` lines 156-200),
threading the `processedTitles` / `processedDOIs` / `processedArxivIds`
accumulators through the loop.  A candidate whose normalised title, DOI or
arXiv id was already recorded by an earlier accepted candidate is skipped
(the loop's `continue`); otherwise it is checked against the corpus and
appended to `duplicates` or to `newPapers` (recording its keys). -/
def checkDuplicatesGo (existingPapers : List Paper) (titleThreshold : Rat) :
    List ExtractedPaper → List String → List String → List String → DeduplicationReport
  | [], _, _, _ => ⟨[], []⟩
  | paper :: rest, pT, pD, pA =>
    let nt := titleKey paper.title
    let nd := jsTruthy ((jsTruthy paper.doi).map normalizeDOI)
    let na := jsTruthy ((jsTruthy paper.arxivId).map normalizeArxivId)
    if nt ∈ pT ∨ (∃ d ∈ nd, d ∈ pD) ∨ (∃ a ∈ na, a ∈ pA) then
      checkDuplicatesGo existingPapers titleThreshold rest pT pD pA
    else
      let result := checkDuplicate paper existingPapers titleThreshold
      if result.isDuplicate then
        let rep := checkDuplicatesGo existingPapers titleThreshold rest pT pD pA
        ⟨rep.newPapers, (paper, result) :: rep.duplicates⟩
      else
        let rep := checkDuplicatesGo existingPapers titleThreshold rest
          (nt :: pT) (nd.elim pD (· :: pD)) (na.elim pA (· :: pA))
        ⟨paper :: rep.newPapers, rep.duplicates⟩

/-- Batch duplicate check, translated from `checkDuplicates`
(`deduplication.ts` lines 156-200). -/
def checkDuplicates (newPapers : List ExtractedPaper) (existingPapers : List Paper)
    (titleThreshold : Rat := 9 / 10) : DeduplicationReport :=
  checkDuplicatesGo existingPapers titleThreshold newPapers [] [] []

/-! ## Enrichment (`src/services` metadata API module) -/

/-- Source tag of an enrichment result. -/
inductive EnrichmentSource where
  | semanticScholar | openAlex | crossref
deriving DecidableEq, Repr

/-- Partial metadata patch (`Partial<Paper>` restricted to the fields that
`mergeApiResponses` can produce and `applyEnrichment` consults). -/
structure EnrichmentData where
  citationCount : Option Nat := none
  influentialCitations : Option Nat := none
  journal : Option Journal := none
  year : Option Nat := none
  authors : Option (List String) := none
deriving DecidableEq, Repr

/-- Per-paper enrichment outcome (interface `EnrichmentResult`). -/
structure EnrichmentResult where
  success : Bool
  source : Option EnrichmentSource := none
  data : Option EnrichmentData := none
  error : Option String := none
deriving DecidableEq, Repr

/-- Apply one enrichment result to one paper: the body of the `map` in
`applyEnrichment` (`recommendation/paperApi` lines 714-736).  The result map
is modelled as an association list (`Map.get` = first binding);
`currentYear` models `new Date().getFullYear()`.  `??` on the option fields
is `Option.or` (an existing value, including `0`, is kept); `||` on the
required `year` field treats `0` as absent; the authors list is replaced
only when it is exactly the `['Unknown']` placeholder, by the patch's
authors when the patch has any (a present list is always truthy in JS). -/
def applyEnrichmentOne (currentYear : Nat)
    (results : List (String × EnrichmentResult)) (paper : Paper) : Paper :=
  match results.lookup paper.id with
  | none => paper
  | some result =>
    if result.success = false then paper
    else
      match result.data with
      | none => paper
      | some d =>
        { paper with
          citationCount := paper.citationCount.or d.citationCount,
          influentialCitations := paper.influentialCitations.or d.influentialCitations,
          journal := paper.journal.or d.journal,
          year :=
            if paper.year ≠ 0 then paper.year
            else
              match d.year with
              | some y => if y ≠ 0 then y else currentYear
              | none => currentYear,
          authors :=
            if paper.authors = ["Unknown"] then d.authors.getD paper.authors
            else paper.authors }

/-- `applyEnrichment` (`recommendation/paperApi` lines 714-736). -/
def applyEnrichment (currentYear : Nat) (papers : List Paper)
    (results : List (String × EnrichmentResult)) : List Paper :=
  papers.map (applyEnrichmentOne currentYear results)

/-- Failure classification of `withRetry` (lines 396-404): `notFound` models
an error whose message contains `'404'`; `rateLimited` one whose message
contains `'429'` (but not `'404'`, which is tested first); `other` is
everything else, including timeouts. -/
inductive ErrClass where
  | notFound | rateLimited | other
deriving DecidableEq, Repr

/-- Outcome of one invocation of the wrapped call `fn`. -/
inductive Attempt (α : Type) where
  | ok (v : α)
  | err (e : ErrClass)
deriving DecidableEq, Repr

/-- Final outcome of `withRetry`: a returned value or a propagated error
(`failure none` models the `'Retry failed'` fallback when no attempt was
ever made). -/
inductive RetryOutcome (α : Type) where
  | success (v : α)
  | failure (e : Option ErrClass)
deriving DecidableEq, Repr

/-- Execution trace of `withRetry`: outcome, the sleep durations performed
in order, and the number of invocations of the wrapped call. -/
structure RetryTrace (α : Type) where
  outcome : RetryOutcome α
  sleeps : List Nat
  attemptsMade : Nat
deriving DecidableEq, Repr

/-- Loop of `withRetry` (`recommendation/paperApi` lines 382-413), modelled
over an explicit sequence `call : Nat → Attempt α` of per-attempt outcomes
(attempt `i` is the `i`-th invocation of `fn`, 0-based as in the source's
`for (let i = 0; i < attempts; i++)`).  A `404`-class failure is propagated
immediately; a `429`-class failure sleeps `delay * (i + 1) * 5` and
continues (also on the final attempt, after which the loop exits and the
last error is thrown); any other failure sleeps `delay * (i + 1)` unless it
happened on the final attempt, then continues.  After the loop the last
error is propagated. -/
def withRetryGo {α : Type} (call : Nat → Attempt α) (attempts delay : Nat) :
    Nat → Option ErrClass → List Nat → RetryTrace α
  | i, lastError, sleeps =>
    if _h : i < attempts then
      match call i with
      | .ok v => ⟨.success v, sleeps.reverse, i + 1⟩
      | .err e =>
        if e = .notFound then ⟨.failure (some e), sleeps.reverse, i + 1⟩
        else if e = .rateLimited then
          withRetryGo call attempts delay (i + 1) (some e) (delay * (i + 1) * 5 :: sleeps)
        else if i < attempts - 1 then
          withRetryGo call attempts delay (i + 1) (some e) (delay * (i + 1) :: sleeps)
        else
          withRetryGo call attempts delay (i + 1) (some e) sleeps
    else ⟨.failure lastError, sleeps.reverse, i⟩
  termination_by i => attempts - i

/-- `withRetry` (`recommendation/paperApi` lines 382-413) with the source's
defaults `attempts = 3`, `delay = 1000`. -/
def withRetry {α : Type} (call : Nat → Attempt α) (attempts : Nat := 3)
    (delay : Nat := 1000) : RetryTrace α :=
  withRetryGo call attempts delay 0 none []

/-- Observable events of a run of `enrichPapers`: a progress callback with
its `(current, total)` arguments, or an inter-batch delay (`sleep`). -/
inductive BatchEvent where
  | progress (current total : Nat)
  | delay
deriving DecidableEq, Repr

/-- JS `Map.set` on an association list: an existing binding is overwritten
in place, a new key is appended. -/
def mapSet (m : List (String × EnrichmentResult)) (k : String)
    (v : EnrichmentResult) : List (String × EnrichmentResult) :=
  if m.any (fun p => p.1 = k) then
    m.map (fun p => if p.1 = k then (k, v) else p)
  else m ++ [(k, v)]

/-- Effective batch size: `options.batchSize || CONFIG.batchSize` — an
absent or zero (falsy) batch size falls back to the default 10. -/
def effectiveBatchSize (batchSize : Option Nat) : Nat :=
  match batchSize with
  | some b => if b = 0 then 10 else b
  | none => 10

/-- Batch loop of `enrichPapers` (`recommendation/paperApi` lines 666-709):
take the next `b` papers, store one result per paper keyed by its id (the
per-paper enrichment outcomes of the batch, whose concurrent completion
order is irrelevant because results are keyed by id), report progress
`(min(processed + b, total), total)`, and if papers remain perform an
inter-batch delay and continue.  `processed` is the loop index `i`. -/
def enrichPapersGo (enrichOne : Paper → EnrichmentResult) (b total : Nat)
    (hb : 0 < b) :
    List Paper → Nat → List (String × EnrichmentResult) → List BatchEvent →
      List (String × EnrichmentResult) × List BatchEvent
  | [], _, acc, events => (acc, events.reverse)
  | p :: rest', processed, acc, events =>
    let batch := (p :: rest').take b
    let acc' := batch.foldl (fun m q => mapSet m q.id (enrichOne q)) acc
    let events' := BatchEvent.progress (min (processed + b) total) total :: events
    if ((p :: rest').drop b).isEmpty then (acc', events'.reverse)
    else
      enrichPapersGo enrichOne b total hb ((p :: rest').drop b) (processed + b) acc'
        (BatchEvent.delay :: events')
  termination_by l => l.length
  decreasing_by simp [List.length_drop]; omega

/-- `enrichPapers` (`recommendation/paperApi` lines 666-709), modelled over
an explicit per-paper enrichment function `enrichOne` (the awaited result of
`enrichPaper` for that paper).  Returns the result map together with the
trace of progress callbacks and inter-batch delays. -/
def enrichPapers (papers : List Paper) (enrichOne : Paper → EnrichmentResult)
    (batchSize : Option Nat := none) :
    List (String × EnrichmentResult) × List BatchEvent :=
  enrichPapersGo enrichOne (effectiveBatchSize batchSize) papers.length
    (by
      cases batchSize with
      | none => simp [effectiveBatchSize]
      | some b =>
        simp only [effectiveBatchSize]
        split <;> omega)
    papers 0 [] []

/-! ## Extraction (`src/utils/parseResearch.ts`) -/

/-- `[text](url)` link syntax reduced to its link text: models
`.replace(/\[([^\]]+)\]\([^)]+\)/g, '$1')` by a leftmost scan: at every
`[`, try to match a non-empty run of non-`]` characters, `](`, a non-empty
run of non-`)` characters and `)`; on success emit the link text and
continue after the match, otherwise emit the character and move on. -/
def stripLinksGo : List Char → List Char
  | [] => []
  | c :: rest =>
    if c = '[' then
      let txt := rest.takeWhile (fun d => d ≠ ']')
      let after := rest.drop txt.length
      let urlRest := after.drop 2
      let url := urlRest.takeWhile (fun d => d ≠ ')')
      if txt ≠ [] ∧ after.take 2 = [']', '('] ∧ url ≠ [] ∧
          (urlRest.drop url.length).take 1 = [')'] then
        txt ++ stripLinksGo ((urlRest.drop url.length).drop 1)
      else c :: stripLinksGo rest
    else c :: stripLinksGo rest
  termination_by l => l.length
  decreasing_by
  · simp [List.length_drop]; omega
  · simp
  · simp

/-- Strip prefix `p` from `l` if present (one anchored occurrence). -/
def dropPrefixIf (p l : List Char) : List Char :=
  if p.isPrefixOf l then l.drop p.length else l

/-- Strip suffix `p` from `l` if present (one anchored occurrence). -/
def dropSuffixIf (p l : List Char) : List Char :=
  if p.isSuffixOf l then l.take (l.length - p.length) else l

/-- `cleanTitle` (`parseResearch.ts` lines 104-112): remove one leading and
one trailing bold marker `**`, then italic marker `*`, strip a leading
heading marker `#+` with following whitespace, strip a leading numbering
`\d+\.` with following whitespace, reduce `[text](url)` links to their
text, and trim. -/
def cleanTitle (title : String) : String :=
  let l1 := dropSuffixIf "**".data (dropPrefixIf "**".data title.data)
  let l2 := dropSuffixIf "*".data (dropPrefixIf "*".data l1)
  let l3 :=
    if l2.head? = some '#' then
      (l2.dropWhile (fun d => d = '#')).dropWhile Char.isWhitespace
    else l2
  let l4 :=
    let ds := l3.takeWhile Char.isDigit
    if ds ≠ [] ∧ (l3.drop ds.length).head? = some '.' then
      (l3.drop (ds.length + 1)).dropWhile Char.isWhitespace
    else l3
  ⟨trimChars (stripLinksGo l4)⟩

/-- The generic section labels rejected by the first pattern of
`isValidPaperTitle` (`^(references?|bibliography|citations?|abstract|
introduction|conclusion|appendix|acknowledgements?)$`, case-insensitive,
with the optional plural `s` expanded). -/
def sectionLabels : List String :=
  ["references", "reference", "bibliography", "citations", "citation",
   "abstract", "introduction", "conclusion", "appendix",
   "acknowledgements", "acknowledgement"]

/-- `isValidPaperTitle` (`parseResearch.ts` lines 117-127): a title is
plausible unless (case-insensitively) it equals a generic section label, or
starts with `figure`/`table`/`section`/`chapter` (the regex's trailing
`\s*\d*` can match the empty string), starts with `deep research` /
`key findings` / `summary` / `overview`, starts with `http://` or
`https://`, or starts with `doi:` / `arxiv:` / `url:`. -/
def isValidPaperTitle (title : String) : Bool :=
  let low := title.data.map Char.toLower
  ¬(sectionLabels.any (fun lbl => low = lbl.data) ||
    ["figure", "table", "section", "chapter"].any (fun w => w.data.isPrefixOf low) ||
    ["deep research", "key findings", "summary", "overview"].any
      (fun w => w.data.isPrefixOf low) ||
    ["http://", "https://"].any (fun w => w.data.isPrefixOf low) ||
    ["doi:", "arxiv:", "url:"].any (fun w => w.data.isPrefixOf low))

/-- Per-passage extraction results: the values of the five extractor calls
at the top of `parsePaperSection` (`parseResearch.ts` lines 197-201),
abstracted as an input bundle — `extractDOIs`, `extractArxivIds`,
`extractTitles`, `extractAuthors` and `extractYear` applied to the
passage. -/
structure SectionExtraction where
  dois : List String
  arxivIds : List String
  titles : List String
  authors : List String
  year : Option Nat := none
deriving DecidableEq, Repr

/-- The title-selection step of `parsePaperSection` (lines 209-216): take
the first extracted title, clean it again, and drop it if it is no longer a
plausible paper title or is shorter than 10 characters.  `some t` means a
title survived plausibility filtering. -/
def selectTitle (titles : List String) : Option String :=
  match titles.head? with
  | none => none
  | some t =>
    let t' := cleanTitle t
    if ¬isValidPaperTitle t' ∨ t'.length < 10 then none else some t'

/-- `parsePaperSection` (`parseResearch.ts` lines 196-248) over the bundled
extraction results: a candidate needs a title or an identifier; a surviving
title is used, otherwise a synthetic `Paper DOI:<doi>` / `Paper arXiv:<id>`
title is built from the first identifier; the URL is built from the first
arXiv id, else the first DOI; authors default to the `['Unknown']`
placeholder. -/
def parsePaperSection (ext : SectionExtraction) : Option ExtractedPaper :=
  if ext.titles = [] ∧ ext.dois = [] ∧ ext.arxivIds = [] then none
  else
    let titleF : Option String :=
      match selectTitle ext.titles with
      | some t => some t
      | none =>
        match ext.dois.head? with
        | some d => some ("Paper DOI:" ++ d)
        | none =>
          match ext.arxivIds.head? with
          | some a => some ("Paper arXiv:" ++ a)
          | none => none
    match titleF with
    | none => none
    | some finalTitle =>
      some
        { title := finalTitle,
          authors := if ext.authors ≠ [] then ext.authors else ["Unknown"],
          year := ext.year,
          doi := ext.dois.head?,
          arxivId := ext.arxivIds.head?,
          url :=
            match ext.arxivIds.head? with
            | some a => some ("https://arxiv.org/abs/" ++ a)
            | none =>
              match ext.dois.head? with
              | some d => some ("https://doi.org/" ++ d)
              | none => none }

/-! ## Id assignment at ingestion (`scripts/add-papers.ts`) -/

/-- Numeric value of a decimal digit character. -/
def digitVal (c : Char) : Nat := c.toNat - '0'.toNat

/-- Value of a list of decimal digit characters (most significant first). -/
def digitsToNat (l : List Char) : Nat :=
  l.foldl (fun a c => a * 10 + digitVal c) 0

/-- JS `parseInt(s, 10)`: skip leading whitespace, accept an optional sign,
read a maximal run of decimal digits (`none` models `NaN` when there is no
digit). -/
def jsParseInt (s : String) : Option Int :=
  let core : List Char → Option Nat := fun l =>
    let ds := l.takeWhile Char.isDigit
    if ds = [] then none else some (digitsToNat ds)
  match s.data.dropWhile Char.isWhitespace with
  | '-' :: rest => (core rest).map (fun n => -(n : Int))
  | '+' :: rest => (core rest).map (fun n => (n : Int))
  | t => (core t).map (fun n => (n : Int))

/-- Little-endian decimal digit characters of a positive natural number,
with an explicit fuel bound for structural recursion (so that it also
reduces inside the kernel); `fuel ≥ n` suffices since the argument is
divided by 10 at every step. -/
def natReprAux : Nat → Nat → List Char
  | _, 0 => []
  | 0, _ + 1 => []
  | fuel + 1, n + 1 =>
    Char.ofNat ('0'.toNat + (n + 1) % 10) :: natReprAux fuel ((n + 1) / 10)

/-- Decimal representation of a natural number: models `String(n)` for the
(always small, non-negative) integer ids the script produces. -/
def natRepr (n : Nat) : String :=
  if n = 0 then "0" else ⟨(natReprAux n n).reverse⟩

/-- The `maxNumericId` accumulator of `generateId` (`add-papers.ts` lines
60-67): the largest numeric value parsed from any existing id, 0 when none
parses.  (The source first collects the ids into a `Set`; deduplication
does not change the maximum, so the fold runs over the list directly.) -/
def maxNumericId (papers : List Paper) : Nat :=
  papers.foldl
    (fun m p =>
      match jsParseInt p.id with
      | some v => if v > (m : Int) then v.toNat else m
      | none => m)
    0

/-- `generateId` (`add-papers.ts` lines 58-70): one more than the largest
numeric id, as a string. -/
def generateId (papers : List Paper) : String :=
  natRepr (maxNumericId papers + 1)

/-- `toPaper` (`parseResearch.ts` lines 321-342).  `uuid` models the
`crypto.randomUUID()` fallback, `today` the creation date and `currentYear`
`new Date().getFullYear()`; the id is the candidate's DOI if truthy, else
its arXiv id if truthy, else the generated token. -/
def toPaper (extracted : ExtractedPaper) (status : ReadingStatus)
    (tags : List String) (uuid : String) (today : String)
    (currentYear : Nat) : Paper :=
  { id := (jsTruthy extracted.doi).getD ((jsTruthy extracted.arxivId).getD uuid),
    title := extracted.title,
    authors := extracted.authors,
    year :=
      match extracted.year with
      | some y => if y ≠ 0 then y else currentYear
      | none => currentYear,
    doi := extracted.doi,
    url := extracted.url,
    abstract := extracted.abstract,
    tags := tags,
    status := status,
    addedDate := today }

/-- Id assignment of the ingestion script (`add-papers.ts` lines 199-207):
each accepted candidate becomes a `Paper` via `toPaper`; a candidate with
neither a truthy DOI nor a truthy arXiv id instead receives the sequential
id `String(baseId + index)` where `baseId = parseInt(generateId(existing))`
(the parse always succeeds on `generateId`'s digit string; `getD 0` is
unreachable). -/
def assignIds (existingPapers : List Paper) (accepted : List ExtractedPaper)
    (status : ReadingStatus) (tags : List String) (uuidGen : Nat → String)
    (today : String) (currentYear : Nat) : List Paper :=
  accepted.mapIdx fun index extracted =>
    let paper := toPaper extracted status tags (uuidGen index) today currentYear
    if jsTruthy extracted.doi = none ∧ jsTruthy extracted.arxivId = none then
      { paper with
        id := natRepr (((jsParseInt (generateId existingPapers)).getD 0).toNat + index) }
    else paper

/-- A decimal digit character; the characters `natRepr` produces. -/
def goodDigit (c : Char) : Bool :=
  c ∈ ['0', '1', '2', '3', '4', '5', '6', '7', '8', '9']

/-- The id `assignIds` gives the candidate at position `index`: its truthy
DOI, else its truthy arXiv id, else the sequential numeric id. -/
def assignedId (existing : List Paper) (index : Nat) (p : ExtractedPaper) : String :=
  match jsTruthy p.doi with
  | some d => d
  | none =>
    match jsTruthy p.arxivId with
    | some a => a
    | none => natRepr (maxNumericId existing + 1 + index)

/-! ## Concrete test fixtures

Small concrete records used by the witness and counterexample theorems. -/

/-- Existing corpus record of the spec's exact-DOI scenario. -/
def exAttention : Paper :=
  { id := "1", title := "Attention Is All You Need", authors := ["Ashish Vaswani"],
    year := 2017, doi := some "10.48550/arXiv.1706.03762" }

/-- Candidate carrying the same DOI with different casing and a
`https://doi.org/` prefix. -/
def candAttention : ExtractedPaper :=
  { title := "The Transformer architecture paper", authors := ["Unknown"],
    doi := some "https://doi.org/10.48550/ARXIV.1706.03762" }

/-- Existing corpus record of the spec's near-duplicate-title scenario. -/
def exTraining : Paper :=
  { id := "2", title := "Training Compute-Optimal Large Language Models",
    authors := ["Jordan Hoffmann"], year := 2022 }

/-- Candidate title differing from `exTraining` only in punctuation and
casing. -/
def candTraining : ExtractedPaper :=
  { title := "Training compute optimal large language models",
    authors := ["Unknown"] }

/-- A candidate with a title and no identifiers, duplicated inside a batch. -/
def candScaling : ExtractedPaper :=
  { title := "Scaling Laws for Neural Language Models", authors := ["Unknown"] }

/-- Existing record whose id happens to equal the DOI of a later candidate
while its own `doi` field is absent. -/
def exIdCollision : Paper :=
  { id := "10.1234/xyz", title := "A Completely Different Subject Entirely",
    authors := ["Someone Else"], year := 2020 }

/-- Accepted candidate whose DOI equals `exIdCollision`'s id; no
deduplication rule fires against `exIdCollision` (its `doi` is absent, its
URL holds no arXiv id, and the titles are dissimilar). -/
def candIdCollision : ExtractedPaper :=
  { title := "Quantum Chromodynamics on the Lattice", authors := ["Unknown"],
    doi := some "10.1234/xyz" }

/-- A small numbered corpus paper used by the batching witness. -/
def numberedPaper (n : Nat) : Paper :=
  { id := natRepr n, title := "Some Paper Title", authors := ["Unknown"],
    year := 2020 }

/-- A patch trying to replace every enrichable field. -/
def patchAll : EnrichmentResult :=
  { success := true, source := some .semanticScholar,
    data := some { citationCount := some 777, influentialCitations := some 88,
                   journal := some { name := "Nature" }, year := some 2024,
                   authors := some ["Patched Author"] } }

/-- A record that already holds a value in every enrichable field
(`citationCount` deliberately 0). -/
def paperW1 : Paper :=
  { id := "w1", title := "Witness Paper", authors := ["Real Author"], year := 2020,
    citationCount := some 0, influentialCitations := some 3,
    journal := some { name := "JMLR" } }

/-- A record with no enrichable field set. -/
def paperW2 : Paper :=
  { id := "w2", title := "Untouched", authors := ["A"], year := 2019 }

/-- A successful patch carrying only a citation count. -/
def patchCit5 : EnrichmentResult :=
  { success := true, data := some { citationCount := some 5 } }

/-- Twenty-five numbered papers for the 25/10 batching scenario. -/
def papers25 : List Paper := (List.range 25).map (fun i => numberedPaper (i + 1))

/-! ## Levenshtein dynamic program: reference recurrence and bounds -/

theorem levIdx_le_max (a b : List Char) : ∀ i j, levIdx a b i j ≤ max i j := by
  intro i
  induction i with
  | zero => intro j; simp [levIdx]
  | succ i ih =>
    intro j
    induction j with
    | zero => simp [levIdx]
    | succ j ihj =>
      rw [levIdx]
      split
      · exact le_trans (ih j) (by omega)
      · have h1 := ih j
        omega

theorem levRowAux_spec (a b : List Char) (i : Nat) :
    ∀ j, j ≤ b.length →
      levRowAux (a.getD i ' ') (b.drop j)
        ((List.range' j (b.length + 1 - j)).map (levIdx a b i)) (levIdx a b (i + 1) j)
        = (List.range' (j + 1) (b.length - j)).map (levIdx a b (i + 1)) := by
  suffices h : ∀ n j, j ≤ b.length → b.length - j = n →
      levRowAux (a.getD i ' ') (b.drop j)
        ((List.range' j (b.length + 1 - j)).map (levIdx a b i)) (levIdx a b (i + 1) j)
        = (List.range' (j + 1) (b.length - j)).map (levIdx a b (i + 1)) by
    intro j hj; exact h _ j hj rfl
  intro n
  induction n with
  | zero =>
    intro j hj hlen
    have hjb : j = b.length := by omega
    subst hjb
    rw [List.drop_length, Nat.sub_self, List.range'_zero, List.map_nil]
    rfl
  | succ n ihn =>
    intro j hj hlen
    have hjlt : j < b.length := by omega
    have hbj : b.getD j ' ' = b[j] := by
      simp [List.getD_eq_getElem?_getD, List.getElem?_eq_getElem hjlt]
    have hdrop : b.drop j = b.getD j ' ' :: b.drop (j + 1) := by
      rw [hbj]
      exact List.drop_eq_getElem_cons hjlt
    have hr1 : b.length + 1 - j = (b.length - j) + 1 := by omega
    have hr2 : List.range' j (b.length + 1 - j) = j :: List.range' (j + 1) (b.length - j) := by
      rw [hr1, List.range'_succ]
    have hr3 : List.range' (j + 1) (b.length - j) =
        (j + 1) :: List.range' (j + 2) (b.length - (j + 1)) := by
      rw [show b.length - j = (b.length - (j + 1)) + 1 by omega, List.range'_succ]
    rw [hdrop, hr2, hr3]
    simp only [List.map_cons]
    rw [levRowAux]
    have hstep : (if a.getD i ' ' = b.getD j ' ' then levIdx a b i j
        else min (levIdx a b i j) (min (levIdx a b (i + 1) j) (levIdx a b i (j + 1))) + 1)
        = levIdx a b (i + 1) (j + 1) := by
      rw [levIdx]
    rw [hstep]
    have ih2 := ihn (j + 1) (by omega) (by omega)
    rw [show (j + 1) + 1 = j + 2 by rfl] at ih2
    have hr4 : List.range' (j + 1) (b.length + 1 - (j + 1)) =
        (j + 1) :: List.range' (j + 2) (b.length - (j + 1)) := by
      rw [show b.length + 1 - (j + 1) = (b.length - (j + 1)) + 1 by omega, List.range'_succ]
    rw [hr4, List.map_cons] at ih2
    exact congrArg _ ih2

theorem levNewRow_spec (a b : List Char) (i : Nat) :
    levNewRow (a.getD i ' ') b ((List.range (b.length + 1)).map (levIdx a b i)) (i + 1)
      = (List.range (b.length + 1)).map (levIdx a b (i + 1)) := by
  have h0 := levRowAux_spec a b i 0 (Nat.zero_le _)
  rw [List.drop_zero, Nat.sub_zero, Nat.sub_zero] at h0
  have hz : levIdx a b (i + 1) 0 = i + 1 := by rw [levIdx]
  rw [hz] at h0
  have hcons : List.range' 0 (b.length + 1) = 0 :: List.range' 1 b.length := by
    simp [List.range'_succ]
  have hrhs : (List.range' 0 (b.length + 1)).map (levIdx a b (i + 1))
      = (i + 1) :: (List.range' 1 b.length).map (levIdx a b (i + 1)) := by
    rw [hcons, List.map_cons]
    congr 1
  rw [levNewRow, List.range_eq_range', hrhs]
  exact congrArg _ h0

theorem lev_foldl_spec (a b : List Char) :
    ∀ (l : List Char) (i : Nat), i ≤ a.length → l = a.drop i →
      l.foldl (fun (st : List Nat × Nat) x => (levNewRow x b st.1 (st.2 + 1), st.2 + 1))
          ((List.range (b.length + 1)).map (levIdx a b i), i)
        = ((List.range (b.length + 1)).map (levIdx a b a.length), a.length) := by
  intro l
  induction l with
  | nil =>
    intro i hile hdrop
    have : a.length ≤ i := List.drop_eq_nil_iff.mp hdrop.symm
    have hieq : i = a.length := by omega
    subst hieq
    rfl
  | cons x xs ih =>
    intro i hile hdrop
    have hlt : i < a.length := by
      by_contra hc
      rw [List.drop_eq_nil_iff.mpr (by omega)] at hdrop
      exact List.cons_ne_nil _ _ hdrop
    have hx : x = a.getD i ' ' := by
      have := List.drop_eq_getElem_cons hlt
      rw [← hdrop] at this
      simp [List.getD_eq_getElem?_getD, List.getElem?_eq_getElem hlt]
      exact (List.cons.injEq _ _ _ _ ▸ this).1
    have hxs : xs = a.drop (i + 1) := by
      have := List.drop_eq_getElem_cons hlt
      rw [← hdrop] at this
      exact (List.cons.injEq _ _ _ _ ▸ this).2
    rw [List.foldl_cons]
    rw [hx, levNewRow_spec a b i]
    exact ih (i + 1) (by omega) hxs

theorem levenshteinDistance_eq_levIdx (a b : List Char) :
    levenshteinDistance a b = levIdx a b a.length b.length := by
  rw [levenshteinDistance]
  have h0 : (List.range (b.length + 1)).map (levIdx a b 0) = List.range (b.length + 1) := by
    rw [show (levIdx a b 0) = id from ?_, List.map_id]
    funext j
    rw [levIdx]
    rfl
  have hfold := lev_foldl_spec a b a 0 (Nat.zero_le _) (by rw [List.drop_zero])
  rw [h0] at hfold
  simp only [hfold]
  rw [List.range_succ, List.map_append]
  simp

theorem levenshteinDistance_le_max (a b : List Char) :
    levenshteinDistance a b ≤ max a.length b.length := by
  rw [levenshteinDistance_eq_levIdx]
  exact levIdx_le_max a b a.length b.length

/-! ## Claim C2: `calculateTitleSimilarity` -/

/-- C2: for all strings `a`, `b`, `calculateTitleSimilarity` returns exactly
1 when the normalised forms are equal (in particular when both are empty);
exactly 0 when exactly one normalised form is empty (the division is never
reached, so no division by zero occurs); and otherwise
`1 - levenshteinDistance / max(length, length)` over the normalised
strings, a value in `[0, 1]`. -/
theorem claim_C2_calculateTitleSimilarity_spec (a b : String) :
    (normalizeTitle a = normalizeTitle b → calculateTitleSimilarity a b = 1) ∧
    (normalizeTitle a = "" → normalizeTitle b ≠ "" → calculateTitleSimilarity a b = 0) ∧
    (normalizeTitle a ≠ "" → normalizeTitle b = "" → calculateTitleSimilarity a b = 0) ∧
    (normalizeTitle a ≠ normalizeTitle b → normalizeTitle a ≠ "" → normalizeTitle b ≠ "" →
      calculateTitleSimilarity a b =
        1 - (levenshteinDistance (normalizeTitle a).data (normalizeTitle b).data : Rat) /
          ((max (normalizeTitle a).data.length (normalizeTitle b).data.length : Nat) : Rat) ∧
      0 ≤ calculateTitleSimilarity a b ∧ calculateTitleSimilarity a b ≤ 1) := by
  have hdata : ∀ s t : String, s = t ↔ s.data = t.data := by
    intro s t
    constructor
    · intro h; rw [h]
    · intro h; cases s; cases t; exact congrArg String.mk h
  have hempty : ∀ s : String, s = "" ↔ s.data = [] := by
    intro s
    rw [hdata s ""]
  refine ⟨?_, ?_, ?_, ?_⟩
  · intro h
    rw [calculateTitleSimilarity, if_pos ((hdata _ _).mp h)]
  · intro ha hb
    have ha' : (normalizeTitle a).data = [] := (hempty _).mp ha
    have hneq : (normalizeTitle a).data ≠ (normalizeTitle b).data := by
      intro hc
      have hb' : (normalizeTitle b).data = [] := hc ▸ ha'
      exact hb ((hempty _).mpr hb')
    rw [calculateTitleSimilarity, if_neg hneq, if_pos (Or.inl (by rw [ha']; rfl))]
  · intro ha hb
    have hb' : (normalizeTitle b).data = [] := (hempty _).mp hb
    have hneq : (normalizeTitle a).data ≠ (normalizeTitle b).data := by
      intro hc
      have ha' : (normalizeTitle a).data = [] := hc.symm ▸ hb'
      exact ha ((hempty _).mpr ha')
    rw [calculateTitleSimilarity, if_neg hneq, if_pos (Or.inr (by rw [hb']; rfl))]
  · intro hne ha hb
    have hc : (normalizeTitle a).data ≠ (normalizeTitle b).data :=
      fun h => hne ((hdata _ _).mpr h)
    have hla : (normalizeTitle a).data.length ≠ 0 := by
      intro h
      exact ha ((hempty _).mpr (List.length_eq_zero.mp h))
    have hlb : (normalizeTitle b).data.length ≠ 0 := by
      intro h
      exact hb ((hempty _).mpr (List.length_eq_zero.mp h))
    have hval : calculateTitleSimilarity a b =
        1 - (levenshteinDistance (normalizeTitle a).data (normalizeTitle b).data : Rat) /
          ((max (normalizeTitle a).data.length (normalizeTitle b).data.length : Nat) : Rat) := by
      rw [calculateTitleSimilarity, if_neg hc, if_neg (by push_neg; exact ⟨hla, hlb⟩)]
    have hMpos : (0 : Rat) <
        ((max (normalizeTitle a).data.length (normalizeTitle b).data.length : Nat) : Rat) := by
      have : 0 < max (normalizeTitle a).data.length (normalizeTitle b).data.length := by omega
      exact_mod_cast this
    have hdle : (levenshteinDistance (normalizeTitle a).data (normalizeTitle b).data : Rat) ≤
        ((max (normalizeTitle a).data.length (normalizeTitle b).data.length : Nat) : Rat) := by
      exact_mod_cast levenshteinDistance_le_max (normalizeTitle a).data (normalizeTitle b).data
    refine ⟨hval, ?_, ?_⟩
    · rw [hval]
      have : (levenshteinDistance (normalizeTitle a).data (normalizeTitle b).data : Rat) /
          ((max (normalizeTitle a).data.length (normalizeTitle b).data.length : Nat) : Rat) ≤ 1 :=
        (div_le_one hMpos).mpr hdle
      linarith
    · rw [hval]
      have h0 : (0 : Rat) ≤
          (levenshteinDistance (normalizeTitle a).data (normalizeTitle b).data : Rat) /
            ((max (normalizeTitle a).data.length (normalizeTitle b).data.length : Nat) : Rat) :=
        div_nonneg (by positivity) (le_of_lt hMpos)
      linarith

/-- Witness for C2 at concrete inputs: `"Hello, World!"` and
`"hello world"` normalise identically (score 1), and an empty first title
against a non-empty one scores 0. -/
theorem claim_C2_witness :
    calculateTitleSimilarity "Hello, World!" "hello world" = 1 ∧
    calculateTitleSimilarity "" "nonempty title" = 0 :=
  ⟨(claim_C2_calculateTitleSimilarity_spec "Hello, World!" "hello world").1 (by decide),
   (claim_C2_calculateTitleSimilarity_spec "" "nonempty title").2.1 (by decide) (by decide)⟩

/-! ## Claim C1: `checkDuplicate` rule order and verdicts -/

/-- The DOI comparison is insensitive to casing: `normalizeDOI` depends only
on the lower-cased character data. -/
theorem normalizeDOI_toLower_congr (s t : String)
    (h : s.data.map Char.toLower = t.data.map Char.toLower) :
    normalizeDOI s = normalizeDOI t := by
  rw [normalizeDOI, normalizeDOI, h]

/-- The DOI comparison strips a `https://doi.org/` or `http://doi.org/`
prefix: prepending either to a DOI that does not itself start with such a
prefix (after lower-casing) does not change its normal form. -/
theorem normalizeDOI_strips_prefix (s : String)
    (h1 : ¬"https://doi.org/".data.isPrefixOf (s.data.map Char.toLower))
    (h2 : ¬"http://doi.org/".data.isPrefixOf (s.data.map Char.toLower)) :
    normalizeDOI ("https://doi.org/" ++ s) = normalizeDOI s ∧
    normalizeDOI ("http://doi.org/" ++ s) = normalizeDOI s := by
  constructor
  · rw [normalizeDOI, normalizeDOI]
    have hdat : ("https://doi.org/" ++ s).data = "https://doi.org/".data ++ s.data := by
      simp [String.data_append]
    rw [hdat, List.map_append]
    have hlowfix : "https://doi.org/".data.map Char.toLower = "https://doi.org/".data := by
      decide
    rw [hlowfix]
    rw [if_pos (List.isPrefixOf_iff_prefix.mpr (List.prefix_append _ _))]
    rw [if_neg (fun hc => h1 hc), if_neg (fun hc => h2 hc)]
    rw [List.drop_left]
  · rw [normalizeDOI, normalizeDOI]
    have hdat : ("http://doi.org/" ++ s).data = "http://doi.org/".data ++ s.data := by
      simp [String.data_append]
    rw [hdat, List.map_append]
    have hlowfix : "http://doi.org/".data.map Char.toLower = "http://doi.org/".data := by
      decide
    rw [hlowfix]
    have hnot : ¬"https://doi.org/".data.isPrefixOf
        ("http://doi.org/".data ++ s.data.map Char.toLower) := by
      intro hc
      rcases List.isPrefixOf_iff_prefix.mp hc with ⟨tail, htail⟩
      have h5 : ("http://doi.org/".data ++ s.data.map Char.toLower).take 5
          = "https://doi.org/".data.take 5 := by
        rw [← htail, List.take_append_of_le_length (by decide)]
      rw [List.take_append_of_le_length (by decide)] at h5
      simp at h5
    rw [if_neg hnot]
    rw [if_pos (List.isPrefixOf_iff_prefix.mpr (List.prefix_append _ _))]
    rw [if_neg (fun hc => h1 hc), if_neg (fun hc => h2 hc)]
    rw [List.drop_left]

/-- C1: `checkDuplicate` evaluates its three rules in fixed order with the
first match terminal.  (i) The DOI comparison lower-cases both sides and
strips a `doi.org` protocol prefix; a candidate with a truthy DOI matching
some existing record's truthy DOI up to that normalisation is a duplicate
with `matchType = doi` and similarity exactly 1, regardless of the other
rules.  (ii) If the DOI rule matches nothing, an exact normalised arXiv-id
match (the existing side's id recovered from its stored URL) gives
`matchType = arxiv` and similarity exactly 1.  (iii) If neither identifier
rule matches, the verdict is duplicate exactly when some existing title has
similarity `≥ titleThreshold` (inclusive); strictly below the threshold
everywhere means not-duplicate. -/
theorem claim_C1_checkDuplicate_rules (p : ExtractedPaper) (existing : List Paper) (θ : Rat) :
    ((∀ s t : String, s.data.map Char.toLower = t.data.map Char.toLower →
        normalizeDOI s = normalizeDOI t) ∧
      (∀ s : String,
        ¬"https://doi.org/".data.isPrefixOf (s.data.map Char.toLower) →
        ¬"http://doi.org/".data.isPrefixOf (s.data.map Char.toLower) →
        normalizeDOI ("https://doi.org/" ++ s) = normalizeDOI s ∧
        normalizeDOI ("http://doi.org/" ++ s) = normalizeDOI s)) ∧
    (∀ d, jsTruthy p.doi = some d →
      (∃ e ∈ existing, doiMatches (normalizeDOI d) e) →
      (checkDuplicate p existing θ).isDuplicate = true ∧
      (checkDuplicate p existing θ).matchType = some MatchType.doi ∧
      (checkDuplicate p existing θ).similarity = some 1 ∧
      ∃ e ∈ existing, (checkDuplicate p existing θ).matchedPaper = some e) ∧
    ((∀ d, jsTruthy p.doi = some d → ∀ e ∈ existing, ¬doiMatches (normalizeDOI d) e) →
      ∀ a, jsTruthy p.arxivId = some a →
      (∃ e ∈ existing, arxivMatches (normalizeArxivId a) e) →
      (checkDuplicate p existing θ).isDuplicate = true ∧
      (checkDuplicate p existing θ).matchType = some MatchType.arxiv ∧
      (checkDuplicate p existing θ).similarity = some 1 ∧
      ∃ e ∈ existing, (checkDuplicate p existing θ).matchedPaper = some e) ∧
    ((∀ d, jsTruthy p.doi = some d → ∀ e ∈ existing, ¬doiMatches (normalizeDOI d) e) →
      (∀ a, jsTruthy p.arxivId = some a → ∀ e ∈ existing, ¬arxivMatches (normalizeArxivId a) e) →
      ((checkDuplicate p existing θ).isDuplicate = true ↔
        ∃ e ∈ existing, θ ≤ calculateTitleSimilarity p.title e.title) ∧
      ((∀ e ∈ existing, calculateTitleSimilarity p.title e.title < θ) →
        (checkDuplicate p existing θ).isDuplicate = false)) := by
  have hfindD : ∀ d, (∀ d', jsTruthy p.doi = some d' →
      ∀ e ∈ existing, ¬doiMatches (normalizeDOI d') e) → jsTruthy p.doi = some d →
      existing.find? (doiMatches (normalizeDOI d)) = none := by
    intro d hno hd
    rw [List.find?_eq_none]
    intro e he
    exact hno d hd e he
  have hfindA : ∀ a, (∀ a', jsTruthy p.arxivId = some a' →
      ∀ e ∈ existing, ¬arxivMatches (normalizeArxivId a') e) → jsTruthy p.arxivId = some a →
      existing.find? (arxivMatches (normalizeArxivId a)) = none := by
    intro a hno ha
    rw [List.find?_eq_none]
    intro e he
    exact hno a ha e he
  refine ⟨⟨normalizeDOI_toLower_congr, fun s h1 h2 => normalizeDOI_strips_prefix s h1 h2⟩,
    ?_, ?_, ?_⟩
  · intro d hd hex
    have hsome : (existing.find? (doiMatches (normalizeDOI d))).isSome := by
      rw [List.find?_isSome]
      rcases hex with ⟨e, he, hm⟩
      exact ⟨e, he, hm⟩
    rcases Option.isSome_iff_exists.mp hsome with ⟨e', he'⟩
    have hmem := List.mem_of_find?_eq_some he'
    simp only [checkDuplicate, hd, he']
    exact ⟨trivial, trivial, trivial, e', hmem, rfl⟩
  · intro hnodoi a ha hex
    have hsome : (existing.find? (arxivMatches (normalizeArxivId a))).isSome := by
      rw [List.find?_isSome]
      rcases hex with ⟨e, he, hm⟩
      exact ⟨e, he, hm⟩
    rcases Option.isSome_iff_exists.mp hsome with ⟨e', he'⟩
    have hmem := List.mem_of_find?_eq_some he'
    cases hd : jsTruthy p.doi with
    | none =>
      simp only [checkDuplicate, hd, ha, he']
      exact ⟨trivial, trivial, trivial, e', hmem, rfl⟩
    | some d =>
      simp only [checkDuplicate, hd, hfindD d hnodoi hd, ha, he']
      exact ⟨trivial, trivial, trivial, e', hmem, rfl⟩
  · intro hnodoi hnoarxiv
    have hred : checkDuplicate p existing θ =
        (match existing.find?
            (fun e => decide (calculateTitleSimilarity p.title e.title ≥ θ)) with
          | some e => ⟨true, some MatchType.title, some e,
              some (calculateTitleSimilarity p.title e.title)⟩
          | none => ⟨false, none, none, none⟩) := by
      cases hd : jsTruthy p.doi with
      | none =>
        cases ha : jsTruthy p.arxivId with
        | none => simp only [checkDuplicate, hd, ha]
        | some a => simp only [checkDuplicate, hd, ha, hfindA a hnoarxiv ha]
      | some d =>
        cases ha : jsTruthy p.arxivId with
        | none => simp only [checkDuplicate, hd, hfindD d hnodoi hd, ha]
        | some a =>
          simp only [checkDuplicate, hd, hfindD d hnodoi hd, ha, hfindA a hnoarxiv ha]
    constructor
    · constructor
      · intro hdup
        rw [hred] at hdup
        cases hfind : existing.find?
            (fun e => decide (calculateTitleSimilarity p.title e.title ≥ θ)) with
        | none =>
          rw [hfind] at hdup
          simp at hdup
        | some e =>
          have hmem := List.mem_of_find?_eq_some hfind
          have hsim := List.find?_some hfind
          exact ⟨e, hmem, of_decide_eq_true hsim⟩
      · intro hex
        rcases hex with ⟨e, he, hsim⟩
        have hsome : (existing.find?
            (fun e => decide (calculateTitleSimilarity p.title e.title ≥ θ))).isSome := by
          rw [List.find?_isSome]
          exact ⟨e, he, decide_eq_true hsim⟩
        rcases Option.isSome_iff_exists.mp hsome with ⟨e', he'⟩
        rw [hred, he']
    · intro hall
      have hnone : existing.find?
          (fun e => decide (calculateTitleSimilarity p.title e.title ≥ θ)) = none := by
        rw [List.find?_eq_none]
        intro e he
        simp only [decide_eq_true_eq]
        push_neg
        exact hall e he
      rw [hred, hnone]

/-- Witness for C1 at the spec's exact-DOI scenario: the candidate's DOI
differs from the stored `10.48550/arXiv.1706.03762` only in casing and a
`https://doi.org/` prefix, and the verdict is duplicate / `doi` /
similarity exactly 1. -/
theorem claim_C1_witness :
    (checkDuplicate candAttention [exAttention] (9 / 10)).isDuplicate = true ∧
    (checkDuplicate candAttention [exAttention] (9 / 10)).matchType = some MatchType.doi ∧
    (checkDuplicate candAttention [exAttention] (9 / 10)).similarity = some 1 := by
  have h := (claim_C1_checkDuplicate_rules candAttention [exAttention] (9 / 10)).2.1
    "https://doi.org/10.48550/ARXIV.1706.03762" (by decide)
    ⟨exAttention, by decide, by decide⟩
  exact ⟨h.1, h.2.1, h.2.2.1⟩

/-! ## Claims C3 and C4: `checkDuplicates` partition, near-duplicate titles -/

/-- Any verdict of `checkDuplicate` is either the empty not-duplicate record
or a duplicate verdict carrying a match type and a matched record drawn from
the corpus. -/
theorem checkDuplicate_shape (p : ExtractedPaper) (existing : List Paper) (θ : Rat) :
    checkDuplicate p existing θ =
      { isDuplicate := false, matchType := none, matchedPaper := none, similarity := none } ∨
    ∃ mt sim, ∃ e ∈ existing, checkDuplicate p existing θ =
      { isDuplicate := true, matchType := some mt, matchedPaper := some e,
        similarity := some sim } := by
  cases hd : jsTruthy p.doi with
  | some d =>
    cases hf : existing.find? (doiMatches (normalizeDOI d)) with
    | some e =>
      right
      exact ⟨MatchType.doi, 1, e, List.mem_of_find?_eq_some hf,
        by simp only [checkDuplicate, hd, hf]⟩
    | none =>
      cases ha : jsTruthy p.arxivId with
      | some a =>
        cases hg : existing.find? (arxivMatches (normalizeArxivId a)) with
        | some e =>
          right
          exact ⟨MatchType.arxiv, 1, e, List.mem_of_find?_eq_some hg,
            by simp only [checkDuplicate, hd, hf, ha, hg]⟩
        | none =>
          cases ht : existing.find?
              (fun e => decide (calculateTitleSimilarity p.title e.title ≥ θ)) with
          | some e =>
            right
            exact ⟨MatchType.title, calculateTitleSimilarity p.title e.title, e,
              List.mem_of_find?_eq_some ht,
              by simp only [checkDuplicate, hd, hf, ha, hg, ht]⟩
          | none =>
            left
            simp only [checkDuplicate, hd, hf, ha, hg, ht]
      | none =>
        cases ht : existing.find?
            (fun e => decide (calculateTitleSimilarity p.title e.title ≥ θ)) with
        | some e =>
          right
          exact ⟨MatchType.title, calculateTitleSimilarity p.title e.title, e,
            List.mem_of_find?_eq_some ht,
            by simp only [checkDuplicate, hd, hf, ha, ht]⟩
        | none =>
          left
          simp only [checkDuplicate, hd, hf, ha, ht]
  | none =>
    cases ha : jsTruthy p.arxivId with
    | some a =>
      cases hg : existing.find? (arxivMatches (normalizeArxivId a)) with
      | some e =>
        right
        exact ⟨MatchType.arxiv, 1, e, List.mem_of_find?_eq_some hg,
          by simp only [checkDuplicate, hd, ha, hg]⟩
      | none =>
        cases ht : existing.find?
            (fun e => decide (calculateTitleSimilarity p.title e.title ≥ θ)) with
        | some e =>
          right
          exact ⟨MatchType.title, calculateTitleSimilarity p.title e.title, e,
            List.mem_of_find?_eq_some ht,
            by simp only [checkDuplicate, hd, ha, hg, ht]⟩
        | none =>
          left
          simp only [checkDuplicate, hd, ha, hg, ht]
    | none =>
      cases ht : existing.find?
          (fun e => decide (calculateTitleSimilarity p.title e.title ≥ θ)) with
      | some e =>
        right
        exact ⟨MatchType.title, calculateTitleSimilarity p.title e.title, e,
          List.mem_of_find?_eq_some ht,
          by simp only [checkDuplicate, hd, ha, ht]⟩
      | none =>
        left
        simp only [checkDuplicate, hd, ha, ht]

/-- Structural facts about the `checkDuplicates` loop: the two report lists
together never exceed the input (skipped within-batch duplicates are in
neither), every rejected entry is an input candidate paired with its exact
`checkDuplicate` verdict (which is a duplicate verdict), and every accepted
entry is an input candidate. -/
theorem checkDuplicatesGo_spec (existing : List Paper) (θ : Rat) :
    ∀ (batch : List ExtractedPaper) (pT pD pA : List String),
      ((checkDuplicatesGo existing θ batch pT pD pA).newPapers.length +
        (checkDuplicatesGo existing θ batch pT pD pA).duplicates.length ≤ batch.length) ∧
      (∀ pr ∈ (checkDuplicatesGo existing θ batch pT pD pA).duplicates,
        pr.1 ∈ batch ∧ pr.2 = checkDuplicate pr.1 existing θ ∧ pr.2.isDuplicate = true) ∧
      (∀ q ∈ (checkDuplicatesGo existing θ batch pT pD pA).newPapers, q ∈ batch) := by
  intro batch
  induction batch with
  | nil =>
    intro pT pD pA
    refine ⟨by simp [checkDuplicatesGo], ?_, ?_⟩
    · intro pr hpr
      simp [checkDuplicatesGo] at hpr
    · intro q hq
      simp [checkDuplicatesGo] at hq
  | cons paper rest ih =>
    intro pT pD pA
    rw [checkDuplicatesGo]
    simp only []
    split
    · rcases ih pT pD pA with ⟨hlen, hdup, hnew⟩
      refine ⟨by simpa using Nat.le_succ_of_le hlen, ?_, ?_⟩
      · intro pr hpr
        rcases hdup pr hpr with ⟨h1, h2, h3⟩
        exact ⟨List.mem_cons_of_mem _ h1, h2, h3⟩
      · intro q hq
        exact List.mem_cons_of_mem _ (hnew q hq)
    · split
      · rename_i hskip hdupflag
        rcases ih pT pD pA with ⟨hlen, hdup, hnew⟩
        refine ⟨?_, ?_, ?_⟩
        · dsimp only
          simp only [List.length_cons]
          omega
        · intro pr hpr
          rcases List.mem_cons.mp hpr with heq | hmem
          · subst heq
            exact ⟨List.mem_cons_self _ _, rfl, hdupflag⟩
          · rcases hdup pr hmem with ⟨h1, h2, h3⟩
            exact ⟨List.mem_cons_of_mem _ h1, h2, h3⟩
        · intro q hq
          exact List.mem_cons_of_mem _ (hnew q hq)
      · rename_i hskip hdupflag
        rcases ih (titleKey paper.title :: pT)
          ((jsTruthy ((jsTruthy paper.doi).map normalizeDOI)).elim pD (· :: pD))
          ((jsTruthy ((jsTruthy paper.arxivId).map normalizeArxivId)).elim pA (· :: pA))
          with ⟨hlen, hdup, hnew⟩
        refine ⟨?_, ?_, ?_⟩
        · dsimp only
          simp only [List.length_cons]
          omega
        · intro pr hpr
          rcases hdup pr hpr with ⟨h1, h2, h3⟩
          exact ⟨List.mem_cons_of_mem _ h1, h2, h3⟩
        · intro q hq
          rcases List.mem_cons.mp hq with heq | hmem
          · subst heq
            exact List.mem_cons_self _ _
          · exact List.mem_cons_of_mem _ (hnew q hmem)

/-- Counterexample to C3 as stated: in the batch
`[candScaling, candScaling]` (identical titles, no identifiers) checked
against an empty corpus, the second copy is rejected against the earlier
accepted one and is silently dropped — it appears in neither `newPapers`
nor `duplicates`, so the two lengths sum to 1, not to the input length 2. -/
theorem claim_C3_counterexample :
    (checkDuplicates [candScaling, candScaling] [] (9 / 10)).newPapers.length +
      (checkDuplicates [candScaling, candScaling] [] (9 / 10)).duplicates.length ≠
      ([candScaling, candScaling] : List ExtractedPaper).length := by
  decide

/-- C3 amended: `checkDuplicates` places each input candidate in at most one
of `newPapers` / `duplicates` (their lengths sum to at most the input
length; a candidate rejected only against an earlier accepted candidate of
the same batch is dropped and appears in neither), and every candidate
placed in `duplicates` is an input candidate carrying its full
`checkDuplicate` verdict — a duplicate verdict whose matched record is a
member of the existing corpus and whose `matchType` names the rule. -/
theorem claim_C3_amended (batch : List ExtractedPaper) (existing : List Paper) (θ : Rat) :
    ((checkDuplicates batch existing θ).newPapers.length +
      (checkDuplicates batch existing θ).duplicates.length ≤ batch.length) ∧
    (∀ pr ∈ (checkDuplicates batch existing θ).duplicates,
      pr.1 ∈ batch ∧ pr.2 = checkDuplicate pr.1 existing θ ∧ pr.2.isDuplicate = true ∧
      pr.2.matchType.isSome ∧ ∃ e ∈ existing, pr.2.matchedPaper = some e) ∧
    (∀ q ∈ (checkDuplicates batch existing θ).newPapers, q ∈ batch) := by
  rcases checkDuplicatesGo_spec existing θ batch [] [] [] with ⟨hlen, hdup, hnew⟩
  refine ⟨hlen, ?_, hnew⟩
  intro pr hpr
  rcases hdup pr hpr with ⟨h1, h2, h3⟩
  rcases checkDuplicate_shape pr.1 existing θ with hsh | ⟨mt, sim, e, he, hsh⟩
  · rw [← h2] at hsh
    rw [hsh] at h3
    simp at h3
  · rw [← h2] at hsh
    refine ⟨h1, h2, h3, ?_, e, he, ?_⟩
    · rw [hsh]
      rfl
    · rw [hsh]

/-- Witness for the amended C3: the dropped-duplicate batch stays within
the length bound, and a rejected candidate of a one-element batch carries a
duplicate verdict. -/
theorem claim_C3_witness :
    ((checkDuplicates [candScaling, candScaling] [] (9 / 10)).newPapers.length +
      (checkDuplicates [candScaling, candScaling] [] (9 / 10)).duplicates.length ≤ 2) ∧
    (checkDuplicate candAttention [exAttention] (9 / 10)).isDuplicate = true := by
  refine ⟨(claim_C3_amended [candScaling, candScaling] [] (9 / 10)).1, ?_⟩
  have h := (claim_C3_amended [candAttention] [exAttention] (9 / 10)).2.1
    (candAttention, checkDuplicate candAttention [exAttention] (9 / 10)) (by decide)
  exact h.2.2.1

/-- Edit distance 1 between the two normalised near-duplicate titles: the
hyphen of `Compute-Optimal` is deleted by the punctuation rule, yielding
`computeoptimal` against `compute optimal`. -/
theorem training_similarity_value :
    calculateTitleSimilarity "Training compute optimal large language models"
      "Training Compute-Optimal Large Language Models" = 45 / 46 := by
  rw [calculateTitleSimilarity]
  rw [show normalizeTitle "Training compute optimal large language models" =
    "training compute optimal large language models" from by decide]
  rw [show normalizeTitle "Training Compute-Optimal Large Language Models" =
    "training computeoptimal large language models" from by decide]
  rw [show levenshteinDistance "training compute optimal large language models".data
    "training computeoptimal large language models".data = 1 from by
      set_option maxRecDepth 4000 in decide]
  norm_num

/-- Counterexample to C4 as stated: the similarity of the two scenario
titles is not 1 — normalisation deletes the hyphen without inserting a
space, so the normal forms differ by one edit. -/
theorem claim_C4_counterexample :
    calculateTitleSimilarity candTraining.title exTraining.title ≠ 1 := by
  have h : calculateTitleSimilarity candTraining.title exTraining.title = 45 / 46 :=
    training_similarity_value
  rw [h]
  norm_num

/-- C4 amended: for the scenario pair the similarity is exactly 45/46
(≈ 0.978, not 1.0); this still meets the default threshold 0.9, so
`checkDuplicate` classifies the candidate as a duplicate by the title rule
with that similarity. -/
theorem claim_C4_amended :
    calculateTitleSimilarity candTraining.title exTraining.title = 45 / 46 ∧
    (9 : Rat) / 10 ≤ 45 / 46 ∧
    checkDuplicate candTraining [exTraining] (9 / 10) =
      { isDuplicate := true, matchType := some MatchType.title,
        matchedPaper := some exTraining, similarity := some (45 / 46) } := by
  have hval : calculateTitleSimilarity candTraining.title exTraining.title = 45 / 46 :=
    training_similarity_value
  refine ⟨hval, by norm_num, ?_⟩
  have hd : jsTruthy candTraining.doi = none := rfl
  have ha : jsTruthy candTraining.arxivId = none := rfl
  have hpred : (fun e => decide
      (calculateTitleSimilarity candTraining.title e.title ≥ (9 : Rat) / 10)) exTraining
      = true := by
    simp only [hval, ge_iff_le, decide_eq_true_eq]
    norm_num
  have hfind : List.find? (fun e => decide
      (calculateTitleSimilarity candTraining.title e.title ≥ (9 : Rat) / 10)) [exTraining]
      = some exTraining :=
    List.find?_cons_of_pos _ hpred
  simp only [checkDuplicate, hd, ha, hfind, hval]

/-! ## Claims C5 and C10: `applyEnrichment` never overwrites -/

/-- C5: `applyEnrichment` (the per-record body of its `map`) never replaces
a field that already holds a meaningful value: a set `citationCount`
(including `some 0`), `influentialCitations` or `journal` survives any
patch unchanged, and the authors list is replaced by the patch's authors
only when the existing list is exactly the `['Unknown']` placeholder. -/
theorem claim_C5_applyEnrichment_no_overwrite (currentYear : Nat)
    (papers : List Paper) (results : List (String × EnrichmentResult)) :
    applyEnrichment currentYear papers results
      = papers.map (applyEnrichmentOne currentYear results) ∧
    ∀ paper : Paper,
      (∀ c, paper.citationCount = some c →
        (applyEnrichmentOne currentYear results paper).citationCount = some c) ∧
      (∀ c, paper.influentialCitations = some c →
        (applyEnrichmentOne currentYear results paper).influentialCitations = some c) ∧
      (∀ j, paper.journal = some j →
        (applyEnrichmentOne currentYear results paper).journal = some j) ∧
      ((applyEnrichmentOne currentYear results paper).authors = paper.authors ∨
        (paper.authors = ["Unknown"] ∧
          ∃ r d as, results.lookup paper.id = some r ∧ r.success = true ∧
            r.data = some d ∧ d.authors = some as ∧
            (applyEnrichmentOne currentYear results paper).authors = as)) := by
  refine ⟨rfl, ?_⟩
  intro paper
  rw [applyEnrichmentOne]
  cases hlook : results.lookup paper.id with
  | none => exact ⟨fun c hc => hc, fun c hc => hc, fun j hj => hj, Or.inl rfl⟩
  | some r =>
    cases hsucc : r.success with
    | false =>
      exact ⟨fun c hc => by simp [hsucc, hc], fun c hc => by simp [hsucc, hc],
        fun j hj => by simp [hsucc, hj], Or.inl (by simp [hsucc])⟩
    | true =>
      cases hdata : r.data with
      | none =>
        exact ⟨fun c hc => by simp [hsucc, hdata, hc], fun c hc => by simp [hsucc, hdata, hc],
          fun j hj => by simp [hsucc, hdata, hj], Or.inl (by simp [hsucc, hdata])⟩
      | some d =>
        refine ⟨?_, ?_, ?_, ?_⟩
        · intro c hc
          simp [hsucc, hdata, hc, Option.or]
        · intro c hc
          simp [hsucc, hdata, hc, Option.or]
        · intro j hj
          simp [hsucc, hdata, hj, Option.or]
        · by_cases hu : paper.authors = ["Unknown"]
          · cases has : d.authors with
            | none => left; simp [hsucc, hdata, hu, has]
            | some as =>
              right
              exact ⟨hu, r, d, as, rfl, hsucc, hdata, has, by simp [hsucc, hdata, hu, has]⟩
          · left
            simp [hsucc, hdata, hu]

/-- Witness for C5: a record with `citationCount = some 0`, a journal and a
non-placeholder author list keeps all of them against a patch that tries to
replace every field. -/
theorem claim_C5_witness :
    (applyEnrichmentOne 2026 [("w1", patchAll)] paperW1).citationCount = some 0 ∧
    (applyEnrichmentOne 2026 [("w1", patchAll)] paperW1).influentialCitations = some 3 ∧
    (applyEnrichmentOne 2026 [("w1", patchAll)] paperW1).journal = some { name := "JMLR" } ∧
    (applyEnrichmentOne 2026 [("w1", patchAll)] paperW1).authors = ["Real Author"] := by
  have h := (claim_C5_applyEnrichment_no_overwrite 2026 [] [("w1", patchAll)]).2 paperW1
  refine ⟨h.1 0 rfl, h.2.1 3 rfl, h.2.2.1 { name := "JMLR" } rfl, ?_⟩
  rcases h.2.2.2 with hsame | ⟨hu, _⟩
  · exact hsame
  · exact absurd hu (by decide)

/-- C10 (implicit frame claim): a paper whose id is absent from the result
map, or whose result is unsuccessful or carries no data, passes through
`applyEnrichment` exactly unchanged; and for every paper the fields outside
`{citationCount, influentialCitations, journal, year, authors}` — id,
title, tags, status, addedDate, doi, url, abstract — are identical in the
output record. -/
theorem claim_C10_applyEnrichment_frame (currentYear : Nat)
    (papers : List Paper) (results : List (String × EnrichmentResult)) :
    applyEnrichment currentYear papers results
      = papers.map (applyEnrichmentOne currentYear results) ∧
    ∀ paper : Paper,
      (results.lookup paper.id = none →
        applyEnrichmentOne currentYear results paper = paper) ∧
      (∀ r, results.lookup paper.id = some r → r.success = false →
        applyEnrichmentOne currentYear results paper = paper) ∧
      (∀ r, results.lookup paper.id = some r → r.data = none →
        applyEnrichmentOne currentYear results paper = paper) ∧
      ((applyEnrichmentOne currentYear results paper).id = paper.id ∧
        (applyEnrichmentOne currentYear results paper).title = paper.title ∧
        (applyEnrichmentOne currentYear results paper).tags = paper.tags ∧
        (applyEnrichmentOne currentYear results paper).status = paper.status ∧
        (applyEnrichmentOne currentYear results paper).addedDate = paper.addedDate ∧
        (applyEnrichmentOne currentYear results paper).doi = paper.doi ∧
        (applyEnrichmentOne currentYear results paper).url = paper.url ∧
        (applyEnrichmentOne currentYear results paper).abstract = paper.abstract) := by
  refine ⟨rfl, ?_⟩
  intro paper
  refine ⟨?_, ?_, ?_, ?_⟩
  · intro hlook
    rw [applyEnrichmentOne, hlook]
  · intro r hlook hsucc
    simp [applyEnrichmentOne, hlook, hsucc]
  · intro r hlook hdata
    rw [applyEnrichmentOne, hlook]
    simp [hdata]
  · rw [applyEnrichmentOne]
    cases hlook : results.lookup paper.id with
    | none => exact ⟨rfl, rfl, rfl, rfl, rfl, rfl, rfl, rfl⟩
    | some r =>
      cases hsucc : r.success with
      | false => simp [hsucc]
      | true =>
        cases hdata : r.data with
        | none => simp [hsucc, hdata]
        | some d => simp [hsucc, hdata]

/-- Witness for C10: a paper missing from the result map is unchanged, and
one with a successful patch keeps its id, title, tags and status. -/
theorem claim_C10_witness :
    applyEnrichmentOne 2026 [] paperW2 = paperW2 ∧
    (applyEnrichmentOne 2026 [("w2", patchCit5)] paperW2).title = "Untouched" := by
  have h0 := claim_C10_applyEnrichment_frame 2026 [] []
  have h := claim_C10_applyEnrichment_frame 2026 [] [("w2", patchCit5)]
  exact ⟨(h0.2 paperW2).1 rfl, ((h.2 paperW2).2.2.2).2.1⟩

/-! ## Claim C6: `withRetry` policy -/

/-- Unrolling lemma for the retry loop: skipping `count` consecutive
non-`404` failures starting at attempt `i` accumulates exactly the sleeps
prescribed by the backoff policy and carries the last error forward. -/
theorem withRetryGo_skip {α : Type} (call : Nat → Attempt α) (attempts delay : Nat) :
    ∀ (count i : Nat) (le : Option ErrClass) (sl : List Nat),
      i + count ≤ attempts →
      (∀ j, i ≤ j → j < i + count → ∃ e, call j = .err e ∧ e ≠ ErrClass.notFound) →
      ∃ le' : Option ErrClass,
        (count = 0 → le' = le) ∧
        (∀ c, count = c + 1 → ∃ e, call (i + c) = .err e ∧ le' = some e) ∧
        withRetryGo call attempts delay i le sl =
          withRetryGo call attempts delay (i + count) le'
            (((List.range' i count).filterMap (fun j =>
              match call j with
              | .err .rateLimited => some (delay * (j + 1) * 5)
              | .err .other => if j < attempts - 1 then some (delay * (j + 1)) else none
              | _ => none)).reverse ++ sl) := by
  intro count
  induction count with
  | zero =>
    intro i le sl _hle _hfail
    exact ⟨le, fun _ => rfl, fun c hc => absurd hc (by omega), by simp⟩
  | succ c ihc =>
    intro i le sl hle hfail
    rcases hfail i (le_refl i) (by omega) with ⟨e, hei, hne⟩
    have hstep : withRetryGo call attempts delay i le sl =
        withRetryGo call attempts delay (i + 1) (some e)
          ((match call i with
            | .err .rateLimited => some (delay * (i + 1) * 5)
            | .err .other => if i < attempts - 1 then some (delay * (i + 1)) else none
            | _ => none).elim sl (fun x => x :: sl)) := by
      rw [withRetryGo]
      rw [dif_pos (by omega : i < attempts)]
      rw [hei]
      cases e with
      | notFound => exact absurd rfl hne
      | rateLimited => simp [hei]
      | other =>
        by_cases hlast : i < attempts - 1
        · simp [hei, hlast]
        · simp [hei, hlast]
    rcases ihc (i + 1) (some e)
        ((match call i with
          | .err .rateLimited => some (delay * (i + 1) * 5)
          | .err .other => if i < attempts - 1 then some (delay * (i + 1)) else none
          | _ => none).elim sl (fun x => x :: sl))
        (by omega)
        (fun j hj1 hj2 => hfail j (by omega) (by omega)) with ⟨le', hz, hs, heq⟩
    refine ⟨le', fun hc => absurd hc (by omega), ?_, ?_⟩
    · intro c' hc'
      have hcc : c = c' := by omega
      subst hcc
      cases c with
      | zero =>
        exact ⟨e, by simpa using hei, hz rfl⟩
      | succ c'' =>
        rcases hs c'' rfl with ⟨e'', he'', hle''⟩
        exact ⟨e'', by rw [show i + (c'' + 1) = i + 1 + c'' by omega]; exact he'', hle''⟩
    · rw [hstep, heq]
      congr 1
      · omega
      · rw [show List.range' i (c + 1) = i :: List.range' (i + 1) c from by rw [List.range'_succ]]
        rw [List.filterMap_cons, hei]
        cases e with
        | notFound => exact absurd rfl hne
        | rateLimited => simp
        | other =>
          by_cases hlast : i < attempts - 1
          · simp [hlast]
          · simp [hlast]

/-- C6: `withRetry` policy.  With any wrapped call (outcome sequence
`call`), any attempt budget and base delay: after `k` leading non-`404`
failures, (i) a success on attempt `k` returns that attempt's result after
exactly the prescribed sleeps — `delay * (j+1) * 5` for a rate-limited
attempt `j`, `delay * (j+1)` for any other failure except on the final
attempt; (ii) a `404` on attempt `k` is propagated immediately, with no
further attempts; (iii) if every attempt fails with a non-`404` error, the
last attempt's error is propagated after all attempts are exhausted. -/
theorem claim_C6_withRetry_policy {α : Type} (call : Nat → Attempt α) (attempts delay : Nat) :
    (∀ k, k < attempts →
      (∀ j, j < k → ∃ e, call j = .err e ∧ e ≠ ErrClass.notFound) →
      ((∀ v, call k = .ok v → withRetry call attempts delay =
          ⟨.success v, (List.range k).filterMap (fun j =>
            match call j with
            | .err .rateLimited => some (delay * (j + 1) * 5)
            | .err .other => if j < attempts - 1 then some (delay * (j + 1)) else none
            | _ => none), k + 1⟩) ∧
       (call k = .err .notFound → withRetry call attempts delay =
          ⟨.failure (some ErrClass.notFound), (List.range k).filterMap (fun j =>
            match call j with
            | .err .rateLimited => some (delay * (j + 1) * 5)
            | .err .other => if j < attempts - 1 then some (delay * (j + 1)) else none
            | _ => none), k + 1⟩))) ∧
    ((∀ j, j < attempts → ∃ e, call j = .err e ∧ e ≠ ErrClass.notFound) →
      ∀ c e, attempts = c + 1 → call c = .err e →
        withRetry call attempts delay =
          ⟨.failure (some e), (List.range attempts).filterMap (fun j =>
            match call j with
            | .err .rateLimited => some (delay * (j + 1) * 5)
            | .err .other => if j < attempts - 1 then some (delay * (j + 1)) else none
            | _ => none), attempts⟩) := by
  constructor
  · intro k hk hfail
    rcases withRetryGo_skip call attempts delay k 0 none [] (by omega)
      (fun j _hj1 hj2 => hfail j (by omega)) with ⟨le', _, _, heq⟩
    simp only [Nat.zero_add, List.append_nil] at heq
    constructor
    · intro v hv
      rw [withRetry, heq, withRetryGo, dif_pos hk, hv]
      simp [List.range_eq_range']
    · intro hv
      rw [withRetry, heq, withRetryGo, dif_pos hk, hv]
      simp [List.range_eq_range']
  · intro hfail c e hc he
    rcases withRetryGo_skip call attempts delay attempts 0 none [] (by omega)
      (fun j _hj1 hj2 => hfail j (by omega)) with ⟨le', _, hs, heq⟩
    simp only [Nat.zero_add, List.append_nil] at heq
    rcases hs c hc with ⟨e', he', hle'⟩
    simp only [Nat.zero_add] at he'
    have hee : e' = e := by
      rw [he] at he'
      cases he'
      rfl
    subst hee
    rw [withRetry, heq, withRetryGo, dif_neg (by omega : ¬attempts < attempts), hle']
    simp [List.range_eq_range']

/-- Witness for C6: attempts 3, delay 1000; attempt 0 rate-limited, attempt
1 another failure, attempt 2 succeeds with 42 — the result is 42 after
sleeps `[5000, 2000]` and exactly 3 attempts.  Also: an immediate `404` on
attempt 0 propagates after a single attempt. -/
theorem claim_C6_witness :
    withRetry (fun j => if j = 0 then .err ErrClass.rateLimited
      else if j = 1 then .err ErrClass.other else .ok 42) 3 1000 =
      ⟨.success 42, [5000, 2000], 3⟩ ∧
    withRetry (fun _ => (.err ErrClass.notFound : Attempt Nat)) 3 1000 =
      ⟨.failure (some ErrClass.notFound), [], 1⟩ := by
  constructor
  · have h := ((claim_C6_withRetry_policy (fun j => if j = 0 then .err ErrClass.rateLimited
        else if j = 1 then .err ErrClass.other else .ok 42) 3 1000).1 2 (by omega)
        (by
          intro j hj
          interval_cases j
          · exact ⟨ErrClass.rateLimited, rfl, by decide⟩
          · exact ⟨ErrClass.other, rfl, by decide⟩)).1 42 rfl
    rw [h]
    rfl
  · have h := ((claim_C6_withRetry_policy (fun _ => (.err ErrClass.notFound : Attempt Nat))
        3 1000).1 0 (by omega) (by omega)).2 rfl
    rw [h]
    rfl


/-! ## Claim C7: `enrichPapers` batching -/

/-- Closed form of one run of the batch loop: the result map is the fold of
`Map.set` over all remaining papers, and the event trace contains, for each
of the `ceil(m/b)` batches, one progress callback `(min(i + b, total),
total)` followed by an inter-batch delay for every batch except the last. -/
theorem enrichPapersGo_spec (enrichOne : Paper → EnrichmentResult) (b total : Nat) (hb : 0 < b) :
    ∀ (remaining : List Paper) (processed : Nat) (acc : List (String × EnrichmentResult))
      (events : List BatchEvent),
      enrichPapersGo enrichOne b total hb remaining processed acc events =
        (remaining.foldl (fun m q => mapSet m q.id (enrichOne q)) acc,
         events.reverse ++ ((List.range ((remaining.length + b - 1) / b)).map (fun k =>
           BatchEvent.progress (min (processed + (k + 1) * b) total) total ::
             (if k + 1 < (remaining.length + b - 1) / b then [BatchEvent.delay] else []))).flatten) := by
  suffices h : ∀ (n : Nat) (remaining : List Paper), remaining.length = n →
      ∀ (processed : Nat) (acc : List (String × EnrichmentResult)) (events : List BatchEvent),
      enrichPapersGo enrichOne b total hb remaining processed acc events =
        (remaining.foldl (fun m q => mapSet m q.id (enrichOne q)) acc,
         events.reverse ++ ((List.range ((remaining.length + b - 1) / b)).map (fun k =>
           BatchEvent.progress (min (processed + (k + 1) * b) total) total ::
             (if k + 1 < (remaining.length + b - 1) / b then [BatchEvent.delay] else []))).flatten) by
    intro remaining
    exact h remaining.length remaining rfl
  intro n
  induction n using Nat.strong_induction_on with
  | _ n ih =>
    intro remaining hlen processed acc events
    match remaining with
    | [] =>
      have hz : (b - 1) / b = 0 := Nat.div_eq_of_lt (by omega)
      simp [enrichPapersGo, hz]
    | p :: rest' =>
      have hm : (p :: rest').length = rest'.length + 1 := rfl
      rw [enrichPapersGo]
      by_cases hdrop : ((p :: rest').drop b).isEmpty
      · have hle : (p :: rest').length ≤ b := by
          have h1 := List.isEmpty_iff.mp hdrop
          have h2 := List.drop_eq_nil_iff.mp h1
          omega
        have htake : (p :: rest').take b = p :: rest' := List.take_of_length_le hle
        have hnb : ((p :: rest').length + b - 1) / b = 1 := by
          rw [show (p :: rest').length + b - 1 = ((p :: rest').length - 1) + 1 * b by omega]
          rw [Nat.add_mul_div_right _ _ hb]
          rw [Nat.div_eq_of_lt (by omega)]
        simp only [hdrop, if_true, htake, hnb]
        simp [List.range_succ]
      · have hgt : b < (p :: rest').length := by
          by_contra hc
          push_neg at hc
          rw [List.isEmpty_iff, List.drop_eq_nil_iff] at hdrop
          exact hdrop hc
        have hdroplen : ((p :: rest').drop b).length = (p :: rest').length - b :=
          List.length_drop _ _
        rw [if_neg (by simpa using hdrop)]
        rw [ih ((p :: rest').drop b).length (by omega) _ rfl (processed + b) _ _]
        have hnb : ((p :: rest').length + b - 1) / b
            = (((p :: rest').drop b).length + b - 1) / b + 1 := by
          rw [hdroplen]
          rw [show (p :: rest').length + b - 1 = ((p :: rest').length - b + b - 1) + b by omega]
          rw [Nat.add_div_right _ hb]
        have h1lt : 0 + 1 < (((p :: rest').drop b).length + b - 1) / b + 1 := by
          have hpos : 0 < (((p :: rest').drop b).length + b - 1) / b := by
            apply Nat.div_pos
            · omega
            · exact hb
          omega
        simp only [Prod.mk.injEq]
        constructor
        · rw [← List.foldl_append, List.take_append_drop]
        · rw [hnb, List.range_succ_eq_map, List.map_cons, List.flatten_cons, List.map_map]
          simp only [Nat.zero_add, one_mul, List.reverse_cons, List.append_assoc]
          rw [if_pos (by omega : 0 + 1 < (((p :: rest').drop b).length + b - 1) / b + 1)]
          have hmapeq : (List.range ((((p :: rest').drop b).length + b - 1) / b)).map
              ((fun k => BatchEvent.progress (min (processed + (k + 1) * b) total) total ::
                 (if k + 1 < (((p :: rest').drop b).length + b - 1) / b + 1
                  then [BatchEvent.delay] else [])) ∘ Nat.succ)
              = (List.range ((((p :: rest').drop b).length + b - 1) / b)).map
              (fun k => BatchEvent.progress (min (processed + b + (k + 1) * b) total) total ::
                 (if k + 1 < (((p :: rest').drop b).length + b - 1) / b
                  then [BatchEvent.delay] else [])) := by
            apply List.map_congr_left
            intro k hk
            rw [List.mem_range] at hk
            simp only [Function.comp_apply]
            have harith : processed + (k.succ + 1) * b = processed + b + (k + 1) * b := by
              rw [Nat.succ_mul]
              omega
            rw [harith]
            congr 1
            have hiff : (k.succ + 1 < (((p :: rest').drop b).length + b - 1) / b + 1)
                ↔ (k + 1 < (((p :: rest').drop b).length + b - 1) / b) := by
              omega
            by_cases hklt : k + 1 < (((p :: rest').drop b).length + b - 1) / b
            · rw [if_pos (hiff.mpr hklt), if_pos hklt]
            · rw [if_neg (fun hc => hklt (hiff.mp hc)), if_neg hklt]
          rw [hmapeq]
          simp [List.append_assoc]

/-- `Map.set` appends when the key is new. -/
theorem mapSet_not_mem (m : List (String × EnrichmentResult)) (k : String)
    (v : EnrichmentResult) (h : ∀ pr ∈ m, pr.1 ≠ k) : mapSet m k v = m ++ [(k, v)] := by
  rw [mapSet, if_neg]
  simp only [List.any_eq_true, decide_eq_true_eq, not_exists]
  push_neg
  exact h

/-- Folding `Map.set` over papers with pairwise-distinct ids (all new to the
accumulator) appends one binding per paper, in order. -/
theorem foldl_mapSet_append (enrichOne : Paper → EnrichmentResult) :
    ∀ (papers : List Paper) (acc : List (String × EnrichmentResult)),
      (papers.map Paper.id).Nodup →
      (∀ p ∈ papers, ∀ pr ∈ acc, pr.1 ≠ p.id) →
      papers.foldl (fun m q => mapSet m q.id (enrichOne q)) acc
        = acc ++ papers.map (fun q => (q.id, enrichOne q)) := by
  intro papers
  induction papers with
  | nil =>
    intro acc _ _
    simp
  | cons p rest ih =>
    intro acc hnodup hdisj
    have hnd : (∀ x ∈ rest, ¬x.id = p.id) ∧ (rest.map Paper.id).Nodup := by
      simpa using hnodup
    rw [List.foldl_cons]
    rw [mapSet_not_mem _ _ _ (fun pr hpr => hdisj p (List.mem_cons_self _ _) pr hpr)]
    rw [ih (acc ++ [(p.id, enrichOne p)]) hnd.2 ?disj]
    · simp
    case disj =>
      intro q hq pr hpr
      rcases List.mem_append.mp hpr with hin | hone
      · exact hdisj q (List.mem_cons_of_mem _ hq) pr hin
      · have hpr1 : pr = (p.id, enrichOne p) := by simpa using hone
        subst hpr1
        intro hcontra
        exact hnd.1 q hq hcontra.symm

/-- Under pairwise-distinct ids, each paper's binding holds its own
enrichment outcome. -/
theorem lookup_map_id (enrichOne : Paper → EnrichmentResult) :
    ∀ (papers : List Paper), (papers.map Paper.id).Nodup →
      ∀ p ∈ papers,
        (papers.map (fun q => (q.id, enrichOne q))).lookup p.id = some (enrichOne p) := by
  intro papers
  induction papers with
  | nil =>
    intro _ p hp
    cases hp
  | cons q rest ih =>
    intro hnodup p hp
    have hnd : (∀ x ∈ rest, ¬x.id = q.id) ∧ (rest.map Paper.id).Nodup := by
      simpa using hnodup
    rcases List.mem_cons.mp hp with heq | hmem
    · subst heq
      simp [List.lookup]
    · have hne : p.id ≠ q.id := hnd.1 p hmem
      rw [List.map_cons]
      rw [show (List.lookup p.id ((q.id, enrichOne q) ::
          rest.map (fun r => (r.id, enrichOne r)))) =
        List.lookup p.id (rest.map (fun r => (r.id, enrichOne r))) from by
          simp [List.lookup, beq_eq_false_iff_ne.mpr hne]]
      exact ih hnd.2 p hmem

/-- The loop depends on the batch size only through its value (proof
irrelevance for the positivity witness). -/
theorem enrichPapersGo_congr (enrichOne : Paper → EnrichmentResult) (total : Nat)
    {b1 b2 : Nat} (h : b1 = b2) (hb1 : 0 < b1) (hb2 : 0 < b2)
    (remaining : List Paper) (processed : Nat) (acc : List (String × EnrichmentResult))
    (events : List BatchEvent) :
    enrichPapersGo enrichOne b1 total hb1 remaining processed acc events =
      enrichPapersGo enrichOne b2 total hb2 remaining processed acc events := by
  subst h
  rfl

/-- C7: for `n` papers and batch size `b > 0`, `enrichPapers` runs
`ceil(n/b)` strictly sequential batches (full batches of `b`, a smaller
final batch): the event trace has exactly one progress callback per batch
with arguments `(min((k+1)·b, n), n)` and an inter-batch delay after every
batch except the last; and when the paper ids are pairwise distinct the
result map holds exactly one outcome per paper, keyed by its id and equal
to that paper's own enrichment outcome — so one paper's failure outcome
cannot affect any other paper's entry. -/
theorem claim_C7_enrichPapers_batching (papers : List Paper)
    (enrichOne : Paper → EnrichmentResult) (b : Nat) (hb : 0 < b) :
    ((enrichPapers papers enrichOne (some b)).2 =
      ((List.range ((papers.length + b - 1) / b)).map (fun k =>
        BatchEvent.progress (min ((k + 1) * b) papers.length) papers.length ::
          (if k + 1 < (papers.length + b - 1) / b then [BatchEvent.delay] else []))).flatten) ∧
    ((papers.map Paper.id).Nodup →
      (enrichPapers papers enrichOne (some b)).1
        = papers.map (fun q => (q.id, enrichOne q)) ∧
      (enrichPapers papers enrichOne (some b)).1.length = papers.length ∧
      ∀ p ∈ papers,
        (enrichPapers papers enrichOne (some b)).1.lookup p.id = some (enrichOne p)) := by
  have heff : effectiveBatchSize (some b) = b := by
    simp only [effectiveBatchSize]
    rw [if_neg (by omega)]
  have hrw : enrichPapers papers enrichOne (some b) =
      enrichPapersGo enrichOne b papers.length hb papers 0 [] [] := by
    rw [enrichPapers]
    exact enrichPapersGo_congr enrichOne papers.length heff _ hb papers 0 [] []
  rw [hrw, enrichPapersGo_spec enrichOne b papers.length hb papers 0 [] []]
  constructor
  · simp only [List.reverse_nil, List.nil_append, Nat.zero_add]
  · intro hnodup
    have hfold := foldl_mapSet_append enrichOne papers [] hnodup (by intro p _ pr hpr; cases hpr)
    simp only [List.nil_append] at hfold
    simp only [hfold]
    refine ⟨by simp, by simp, ?_⟩
    exact lookup_map_id enrichOne papers hnodup


/-- Witness for C7: the spec's 25-paper, batch-size-10 scenario yields
events `[progress(10,25), delay, progress(20,25), delay, progress(25,25)]`
— three batches, exactly two inter-batch delays — and 25 outcomes. -/
theorem claim_C7_witness :
    (enrichPapers papers25 (fun _ => { success := false }) (some 10)).2 =
      [BatchEvent.progress 10 25, BatchEvent.delay,
       BatchEvent.progress 20 25, BatchEvent.delay,
       BatchEvent.progress 25 25] ∧
    (enrichPapers papers25 (fun _ => { success := false }) (some 10)).2.count
      BatchEvent.delay = 2 ∧
    (enrichPapers papers25 (fun _ => { success := false }) (some 10)).1.length = 25 := by
  have h := claim_C7_enrichPapers_batching papers25 (fun _ => { success := false }) 10
    (by omega)
  have hev := h.1
  have hlen := (h.2 (by decide)).2.1
  refine ⟨?_, ?_, ?_⟩
  · rw [hev]
    decide
  · rw [hev]
    decide
  · rw [hlen]
    decide

/-! ## Claim C8: `parsePaperSection` yield conditions -/

/-- C8: over the bundled extraction results of a passage,
`parsePaperSection` yields a candidate if and only if a title survives the
plausibility filtering of the title-selection step (`selectTitle`, the
code's re-clean / re-validate of the first extracted title) or the passage
contains at least one DOI or arXiv identifier.  When no title survives but
an identifier exists, the candidate's title is the synthetic
`Paper DOI:<doi>` (preferred) or `Paper arXiv:<id>`.  The generic section
label `References` is rejected by the plausibility filter (so a passage
whose only heading is `References` contributes no surviving title), and a
passage with no surviving title and no identifiers yields no candidate. -/
theorem claim_C8_parsePaperSection_yield (ext : SectionExtraction) :
    ((parsePaperSection ext).isSome ↔
      (selectTitle ext.titles).isSome ∨ ext.dois ≠ [] ∨ ext.arxivIds ≠ []) ∧
    (selectTitle ext.titles = none →
      (∀ d rest, ext.dois = d :: rest →
        ∃ cand, parsePaperSection ext = some cand ∧ cand.title = "Paper DOI:" ++ d) ∧
      (ext.dois = [] → ∀ a rest, ext.arxivIds = a :: rest →
        ∃ cand, parsePaperSection ext = some cand ∧ cand.title = "Paper arXiv:" ++ a)) ∧
    isValidPaperTitle "References" = false ∧
    (selectTitle ext.titles = none → ext.dois = [] → ext.arxivIds = [] →
      parsePaperSection ext = none) := by
  refine ⟨?_, ?_, by decide, ?_⟩
  · cases hsel : selectTitle ext.titles with
    | some t =>
      have hne : ¬(ext.titles = [] ∧ ext.dois = [] ∧ ext.arxivIds = []) := by
        rintro ⟨ht, _, _⟩
        rw [ht] at hsel
        simp [selectTitle] at hsel
      rw [parsePaperSection, if_neg hne]
      simp [hsel]
    | none =>
      cases hdois : ext.dois with
      | cons d rest =>
        have hne : ¬(ext.titles = [] ∧ ext.dois = [] ∧ ext.arxivIds = []) := by
          rintro ⟨_, hd, _⟩
          rw [hdois] at hd
          cases hd
        rw [parsePaperSection, if_neg hne]
        simp [hsel, hdois]
      | nil =>
        cases harx : ext.arxivIds with
        | cons a rest =>
          have hne : ¬(ext.titles = [] ∧ ext.dois = [] ∧ ext.arxivIds = []) := by
            rintro ⟨_, _, ha⟩
            rw [harx] at ha
            cases ha
          rw [parsePaperSection, if_neg hne]
          simp [hsel, hdois, harx]
        | nil =>
          by_cases hts : ext.titles = []
          · rw [parsePaperSection, if_pos ⟨hts, hdois, harx⟩]
            simp [hsel, hdois, harx]
          · have hne : ¬(ext.titles = [] ∧ ext.dois = [] ∧ ext.arxivIds = []) :=
              fun h => hts h.1
            rw [parsePaperSection, if_neg hne]
            simp [hsel, hdois, harx]
  · intro hsel
    constructor
    · intro d rest hdois
      have hne : ¬(ext.titles = [] ∧ ext.dois = [] ∧ ext.arxivIds = []) := by
        rintro ⟨_, hd, _⟩
        rw [hdois] at hd
        cases hd
      rw [parsePaperSection, if_neg hne]
      simp [hsel, hdois]
    · intro hdois a rest harx
      have hne : ¬(ext.titles = [] ∧ ext.dois = [] ∧ ext.arxivIds = []) := by
        rintro ⟨_, _, ha⟩
        rw [harx] at ha
        cases ha
      rw [parsePaperSection, if_neg hne]
      simp [hsel, hdois, harx]
  · intro hsel hdois harx
    by_cases hts : ext.titles = []
    · rw [parsePaperSection, if_pos ⟨hts, hdois, harx⟩]
    · have hne : ¬(ext.titles = [] ∧ ext.dois = [] ∧ ext.arxivIds = []) :=
        fun h => hts h.1
      rw [parsePaperSection, if_neg hne]
      simp [hsel, hdois, harx]

/-- Witness for C8: a passage yielding only the DOI `10.1234/wit` (no
usable title) produces the synthetic candidate `Paper DOI:10.1234/wit`,
and a passage whose sole heading was the rejected label `References` (empty
extraction bundle) yields no candidate. -/
theorem claim_C8_witness :
    (∃ cand, parsePaperSection
        { dois := ["10.1234/wit"], arxivIds := [], titles := [], authors := [] }
        = some cand ∧ cand.title = "Paper DOI:10.1234/wit") ∧
    parsePaperSection { dois := [], arxivIds := [], titles := [], authors := [] } = none := by
  constructor
  · exact ((claim_C8_parsePaperSection_yield
      { dois := ["10.1234/wit"], arxivIds := [], titles := [], authors := [] }).2.1
      (by decide)).1 "10.1234/wit" [] rfl
  · exact (claim_C8_parsePaperSection_yield
      { dois := [], arxivIds := [], titles := [], authors := [] }).2.2.2
      (by decide) rfl rfl

/-! ## Claim C9: id uniqueness at ingestion -/
/-- The digit characters built by `natReprAux` are decimal digits. -/
theorem goodDigit_ofNat (r : Nat) (hr : r < 10) :
    goodDigit (Char.ofNat ('0'.toNat + r)) = true := by
  interval_cases r <;> decide

/-- A digit character is a digit, not whitespace, and not a sign. -/
theorem goodDigit_facts (c : Char) (h : goodDigit c = true) :
    c.isDigit = true ∧ c.isWhitespace = false ∧ c ≠ '-' ∧ c ≠ '+' := by
  simp only [goodDigit, List.mem_cons, decide_eq_true_eq] at h
  rcases h with rfl | rfl | rfl | rfl | rfl | rfl | rfl | rfl | rfl | rfl | h
  · exact ⟨by decide, by decide, by decide, by decide⟩
  · exact ⟨by decide, by decide, by decide, by decide⟩
  · exact ⟨by decide, by decide, by decide, by decide⟩
  · exact ⟨by decide, by decide, by decide, by decide⟩
  · exact ⟨by decide, by decide, by decide, by decide⟩
  · exact ⟨by decide, by decide, by decide, by decide⟩
  · exact ⟨by decide, by decide, by decide, by decide⟩
  · exact ⟨by decide, by decide, by decide, by decide⟩
  · exact ⟨by decide, by decide, by decide, by decide⟩
  · exact ⟨by decide, by decide, by decide, by decide⟩
  · simp at h

/-- `digitVal` inverts `Char.ofNat` on a digit value. -/
theorem digitVal_ofNat (r : Nat) (hr : r < 10) :
    digitVal (Char.ofNat ('0'.toNat + r)) = r := by
  interval_cases r <;> decide

/-- Appending one digit multiplies the accumulated value by ten. -/
theorem digitsToNat_append_singleton (l : List Char) (c : Char) :
    digitsToNat (l ++ [c]) = digitsToNat l * 10 + digitVal c := by
  rw [digitsToNat, digitsToNat, List.foldl_append]
  rfl

/-- The digit list built by `natReprAux` is non-empty, all digits, and
evaluates back (reversed) to the number. -/
theorem natReprAux_spec :
    ∀ (n fuel : Nat), 0 < n → n ≤ fuel →
      natReprAux fuel n ≠ [] ∧ (∀ c ∈ natReprAux fuel n, goodDigit c) ∧
      digitsToNat (natReprAux fuel n).reverse = n := by
  intro n
  induction n using Nat.strong_induction_on with
  | _ n ih =>
    intro fuel hpos hle
    match n, fuel, hpos with
    | m + 1, f + 1, _ =>
      rw [natReprAux]
      have hchar := goodDigit_ofNat ((m + 1) % 10) (by omega)
      have hval := digitVal_ofNat ((m + 1) % 10) (by omega)
      by_cases hq : (m + 1) / 10 = 0
      · rw [hq]
        refine ⟨by simp [natReprAux], ?_, ?_⟩
        · intro c hc
          simp only [natReprAux, List.mem_singleton] at hc
          rw [hc]
          exact hchar
        · simp only [natReprAux, List.reverse_cons, List.reverse_nil, List.nil_append]
          rw [show [Char.ofNat ('0'.toNat + (m + 1) % 10)] =
            [] ++ [Char.ofNat ('0'.toNat + (m + 1) % 10)] from rfl]
          rw [digitsToNat_append_singleton, hval]
          simp [digitsToNat]
          omega
      · have hlt : (m + 1) / 10 < m + 1 := Nat.div_lt_self (by omega) (by omega)
        have hle2 : (m + 1) / 10 ≤ f := by
          have : (m + 1) / 10 ≤ m := by
            have h10 : (m + 1) / 10 ≤ (m + 1) / 1 := Nat.div_le_div_left (by omega) (by omega)
            simp at h10
            omega
          omega
        rcases ih ((m + 1) / 10) hlt f (by omega) hle2 with ⟨hne, hdig, hvalrec⟩
        refine ⟨by simp, ?_, ?_⟩
        · intro c hc
          rcases List.mem_cons.mp hc with rfl | hmem
          · exact hchar
          · exact hdig c hmem
        · rw [List.reverse_cons, digitsToNat_append_singleton, hvalrec, hval]
          omega

/-- Every character of `natRepr n` is a decimal digit. -/
theorem natRepr_all_digits (n : Nat) : ∀ c ∈ (natRepr n).data, goodDigit c := by
  rw [natRepr]
  by_cases h : n = 0
  · rw [if_pos h]
    intro c hc
    have : c = '0' := by simpa using hc
    rw [this]
    decide
  · rw [if_neg h]
    intro c hc
    rcases natReprAux_spec n n (by omega) (le_refl n) with ⟨_, hdig, _⟩
    exact hdig c (List.mem_reverse.mp hc)

/-- Leading-whitespace stripping is the identity on a digit string. -/
theorem dropWhile_ws_of_digits (l : List Char) (h : ∀ c ∈ l, goodDigit c) :
    l.dropWhile Char.isWhitespace = l := by
  cases l with
  | nil => rfl
  | cons c rest =>
    rw [List.dropWhile_cons]
    rw [(goodDigit_facts c (h c (List.mem_cons_self _ _))).2.1]
    simp

/-- The digit prefix of an all-digit string is the whole string. -/
theorem takeWhile_digit_of_digits (l : List Char) (h : ∀ c ∈ l, goodDigit c) :
    l.takeWhile Char.isDigit = l := by
  induction l with
  | nil => rfl
  | cons c rest ih =>
    rw [List.takeWhile_cons]
    rw [(goodDigit_facts c (h c (List.mem_cons_self _ _))).1]
    simp only [if_true]
    rw [ih (fun d hd => h d (List.mem_cons_of_mem _ hd))]

/-- `parseInt` round-trips `natRepr`: parsing the decimal rendering of `n`
yields `n`. -/
theorem jsParseInt_natRepr (n : Nat) : jsParseInt (natRepr n) = some (n : Int) := by
  by_cases h : n = 0
  · subst h
    decide
  · have hdig := natRepr_all_digits n
    rcases natReprAux_spec n n (by omega) (le_refl n) with ⟨hne, _, hval⟩
    have hdata : (natRepr n).data = (natReprAux n n).reverse := by
      rw [natRepr, if_neg h]
    simp only [jsParseInt]
    rw [dropWhile_ws_of_digits _ hdig, hdata]
    rw [hdata] at hdig
    have hrne : (natReprAux n n).reverse ≠ [] := by
      intro hc
      exact hne (by simpa using hc)
    split
    · rename_i rest heq
      have hmem : '-' ∈ (natReprAux n n).reverse := by
        rw [heq]
        exact List.mem_cons_self _ _
      have := goodDigit_facts '-' (hdig '-' hmem)
      exact absurd rfl this.2.2.1
    · rename_i rest heq
      have hmem : '+' ∈ (natReprAux n n).reverse := by
        rw [heq]
        exact List.mem_cons_self _ _
      have := goodDigit_facts '+' (hdig '+' hmem)
      exact absurd rfl this.2.2.2
    · rw [takeWhile_digit_of_digits _ hdig]
      rw [if_neg hrne]
      simp [hval]

/-- Decimal rendering is injective. -/
theorem natRepr_inj {m n : Nat} (h : natRepr m = natRepr n) : m = n := by
  have hm := jsParseInt_natRepr m
  have hn := jsParseInt_natRepr n
  rw [h] at hm
  have := hm.symm.trans hn
  injection this with h2
  exact_mod_cast h2

/-- `maxNumericId` dominates every numeric id parsed from the corpus. -/
theorem maxNumericId_ge (papers : List Paper) :
    ∀ p ∈ papers, ∀ v : Int, jsParseInt p.id = some v → v ≤ (maxNumericId papers : Int) := by
  suffices hgen : ∀ (l : List Paper) (init : Nat),
      init ≤ l.foldl (fun (m : Nat) (p : Paper) =>
        match jsParseInt p.id with
        | some v => if v > (m : Int) then v.toNat else m
        | none => m) init ∧
      ∀ p ∈ l, ∀ v : Int, jsParseInt p.id = some v →
        v ≤ ((l.foldl (fun (m : Nat) (p : Paper) =>
          match jsParseInt p.id with
          | some v => if v > (m : Int) then v.toNat else m
          | none => m) init : Nat) : Int) by
    intro p hp v hv
    exact (hgen papers 0).2 p hp v hv
  intro l
  induction l with
  | nil =>
    intro init
    exact ⟨le_refl _, fun p hp => absurd hp (List.not_mem_nil p)⟩
  | cons q rest ih =>
    intro init
    rw [List.foldl_cons]
    rcases hq : jsParseInt q.id with _ | v
    · simp only [hq]
      refine ⟨(ih init).1, ?_⟩
      intro p hp w hw
      rcases List.mem_cons.mp hp with rfl | hmem
      · rw [hq] at hw
        cases hw
      · exact (ih init).2 p hmem w hw
    · simp only [hq]
      by_cases hgt : v > (init : Int)
      · rw [if_pos hgt]
        have hm := (ih v.toNat).1
        refine ⟨le_trans (by omega) hm, ?_⟩
        intro p hp w hw
        rcases List.mem_cons.mp hp with rfl | hmem
        · rw [hq] at hw
          injection hw with hw'
          subst hw'
          omega
        · exact (ih v.toNat).2 p hmem w hw
      · rw [if_neg hgt]
        have hm := (ih init).1
        refine ⟨hm, ?_⟩
        intro p hp w hw
        rcases List.mem_cons.mp hp with rfl | hmem
        · rw [hq] at hw
          injection hw with hw'
          subst hw'
          omega
        · exact (ih init).2 p hmem w hw

/-- A non-whitespace member of a list survives `dropWhile` of whitespace. -/
theorem mem_dropWhile_ws (l : List Char) (c : Char) (hc : c ∈ l)
    (hw : c.isWhitespace = false) : c ∈ l.dropWhile Char.isWhitespace := by
  have hsplit : l.takeWhile Char.isWhitespace ++ l.dropWhile Char.isWhitespace = l :=
    List.takeWhile_append_dropWhile _ _
  rw [← hsplit] at hc
  rcases List.mem_append.mp hc with htk | hdr
  · have := List.mem_takeWhile_imp htk
    rw [hw] at this
    cases this
  · exact hdr

/-- A member that is neither whitespace nor trimmed survives `trimChars`. -/
theorem mem_trimChars (l : List Char) (c : Char) (hc : c ∈ l)
    (hw : c.isWhitespace = false) : c ∈ trimChars l := by
  rw [trimChars, List.mem_reverse]
  apply mem_dropWhile_ws
  · rw [List.mem_reverse]
    exact mem_dropWhile_ws l c hc hw
  · exact hw

/-- A dot in an arXiv id survives `normalizeArxivId` (lower-casing keeps
it, the version suffix `v\d+$` holds no dot, trimming keeps non-space). -/
theorem dot_mem_normalizeArxivId (a : String) (h : '.' ∈ a.data) :
    '.' ∈ (normalizeArxivId a).data := by
  have hlow : '.' ∈ a.data.map Char.toLower :=
    List.mem_map.mpr ⟨'.', h, by decide⟩
  rw [normalizeArxivId]
  simp only []
  split
  · rename_i hcond
    rcases hcond with ⟨hds, hv⟩
    set r := (a.data.map Char.toLower).reverse with hr
    set ds := r.takeWhile Char.isDigit with hds2
    have hmemr : '.' ∈ r := List.mem_reverse.mpr hlow
    have hpre : ds = r.take ds.length := by
      have hp : ds <+: r := List.takeWhile_prefix _
      exact List.prefix_iff_eq_take.mp hp
    have hrsplit : r = ds ++ r.drop ds.length := by
      conv_lhs => rw [← List.take_append_drop ds.length r]
      rw [← hpre]
    cases hdr : r.drop ds.length with
    | nil =>
      rw [hdr] at hv
      cases hv
    | cons y t =>
      have hy : y = 'v' := by
        rw [hdr] at hv
        simpa using hv
      have ht : r.drop (ds.length + 1) = t := by
        rw [← List.drop_drop 1 ds.length r, hdr]
        rfl
      have hmem3 : '.' ∈ t := by
        rw [hrsplit, hdr] at hmemr
        rcases List.mem_append.mp hmemr with hin | hin
        · have := List.mem_takeWhile_imp (hds2 ▸ hin)
          simp at this
        · rcases List.mem_cons.mp hin with heq | hin2
          · rw [hy] at heq
            cases heq
          · exact hin2
      rw [ht]
      apply mem_trimChars
      · rw [List.mem_reverse]
        exact hmem3
      · decide
  · apply mem_trimChars _ _ hlow
    decide

/-- Accepted candidates of `checkDuplicatesGo` have normalised DOI /
arXiv keys outside the initial accumulators and pairwise distinct among
themselves. -/
theorem checkDuplicatesGo_key_facts (existing : List Paper) (θ : Rat) :
    ∀ (batch : List ExtractedPaper) (pT pD pA : List String),
      (∀ q ∈ (checkDuplicatesGo existing θ batch pT pD pA).newPapers,
        (∀ x, jsTruthy ((jsTruthy q.doi).map normalizeDOI) = some x → x ∉ pD) ∧
        (∀ x, jsTruthy ((jsTruthy q.arxivId).map normalizeArxivId) = some x → x ∉ pA)) ∧
      List.Pairwise (fun p q =>
        (∀ x y, jsTruthy ((jsTruthy p.doi).map normalizeDOI) = some x →
          jsTruthy ((jsTruthy q.doi).map normalizeDOI) = some y → x ≠ y) ∧
        (∀ x y, jsTruthy ((jsTruthy p.arxivId).map normalizeArxivId) = some x →
          jsTruthy ((jsTruthy q.arxivId).map normalizeArxivId) = some y → x ≠ y))
        (checkDuplicatesGo existing θ batch pT pD pA).newPapers := by
  intro batch
  induction batch with
  | nil =>
    intro pT pD pA
    constructor
    · intro q hq
      simp [checkDuplicatesGo] at hq
    · simp [checkDuplicatesGo]
  | cons paper rest ih =>
    intro pT pD pA
    rw [checkDuplicatesGo]
    simp only []
    split
    · exact ih pT pD pA
    · split
      · exact ih pT pD pA
      · rename_i hskip _hdup
        push_neg at hskip
        rcases hskip with ⟨_hnt, hnd, hna⟩
        rcases ih (titleKey paper.title :: pT)
          ((jsTruthy ((jsTruthy paper.doi).map normalizeDOI)).elim pD (· :: pD))
          ((jsTruthy ((jsTruthy paper.arxivId).map normalizeArxivId)).elim pA (· :: pA))
          with ⟨hS1, hS2⟩
        constructor
        · intro q hq
          rcases List.mem_cons.mp hq with rfl | hmem
          · constructor
            · intro x hx
              have := hnd x
              rw [hx] at this
              exact fun hc => (this (by simp)) hc
            · intro x hx
              have := hna x
              rw [hx] at this
              exact fun hc => (this (by simp)) hc
          · rcases hS1 q hmem with ⟨h1, h2⟩
            constructor
            · intro x hx
              have h1x := h1 x hx
              intro hc
              apply h1x
              cases hval : jsTruthy ((jsTruthy paper.doi).map normalizeDOI) with
              | none => exact hc
              | some z => exact List.mem_cons_of_mem _ hc
            · intro x hx
              have h2x := h2 x hx
              intro hc
              apply h2x
              cases hval : jsTruthy ((jsTruthy paper.arxivId).map normalizeArxivId) with
              | none => exact hc
              | some z => exact List.mem_cons_of_mem _ hc
        · rw [List.pairwise_cons]
          refine ⟨?_, hS2⟩
          intro q hq
          rcases hS1 q hq with ⟨h1, h2⟩
          constructor
          · intro x y hx hy
            intro hxy
            have h1y := h1 y hy
            apply h1y
            rw [hx]
            simp only [Option.elim]
            rw [← hxy]
            exact List.mem_cons_self _ _
          · intro x y hx hy
            intro hxy
            have h2y := h2 y hy
            apply h2y
            rw [hx]
            simp only [Option.elim]
            rw [← hxy]
            exact List.mem_cons_self _ _


/-- The ids produced by `assignIds` are exactly `assignedId` at each
position. -/
theorem assignIds_map_id (existing : List Paper) (accepted : List ExtractedPaper)
    (status : ReadingStatus) (tags : List String) (uuidGen : Nat → String)
    (today : String) (currentYear : Nat) :
    (assignIds existing accepted status tags uuidGen today currentYear).map Paper.id
      = accepted.mapIdx (fun i p => assignedId existing i p) := by
  rw [assignIds, List.mapIdx_eq_enum_map, List.mapIdx_eq_enum_map, List.map_map]
  apply List.map_congr_left
  rintro ⟨i, p⟩ _hmem
  simp only [Function.comp_apply, Function.uncurry_apply_pair]
  cases hd : jsTruthy p.doi with
  | some d =>
    rw [if_neg (by rintro ⟨hc, _⟩; cases hc)]
    rw [assignedId, hd]
    rw [toPaper]
    simp [hd]
  | none =>
    cases ha : jsTruthy p.arxivId with
    | some a =>
      rw [if_neg (by rintro ⟨_, hc⟩; cases hc)]
      rw [assignedId, hd, ha]
      rw [toPaper]
      simp [hd, ha]
    | none =>
      rw [if_pos ⟨rfl, rfl⟩]
      rw [assignedId, hd, ha]
      simp only []
      rw [generateId, jsParseInt_natRepr]
      simp

/-- C9 (amended): the id-uniqueness invariant holds conditionally, not
unconditionally.  If the existing corpus has pairwise-distinct ids, every
accepted candidate's truthy DOI contains a slash, has a non-empty normal
form and does not already occur as a corpus id, and every accepted
candidate's truthy arXiv id (when its DOI is falsy) contains a dot, no
slash and does not already occur as a corpus id, then the ids assigned at
ingestion (DOI, else arXiv id, else sequential numeric id) are pairwise
distinct and fresh, so the corpus after appending still has
pairwise-distinct ids.  Without the freshness side conditions the
invariant fails (see the counterexample). -/
theorem claim_C9_amended (existing : List Paper) (batch : List ExtractedPaper)
    (θ : Rat) (status : ReadingStatus) (tags : List String) (uuidGen : Nat → String)
    (today : String) (currentYear : Nat)
    (hnodup : (existing.map Paper.id).Nodup)
    (hdoi : ∀ p ∈ (checkDuplicates batch existing θ).newPapers, ∀ d,
      jsTruthy p.doi = some d →
        '/' ∈ d.data ∧ normalizeDOI d ≠ "" ∧ d ∉ existing.map Paper.id)
    (harx : ∀ p ∈ (checkDuplicates batch existing θ).newPapers,
      jsTruthy p.doi = none → ∀ a, jsTruthy p.arxivId = some a →
        '.' ∈ a.data ∧ '/' ∉ a.data ∧ a ∉ existing.map Paper.id) :
    ((existing ++ assignIds existing (checkDuplicates batch existing θ).newPapers
        status tags uuidGen today currentYear).map Paper.id).Nodup := by
  rw [List.map_append, List.nodup_append]
  set A := (checkDuplicates batch existing θ).newPapers with hAdef
  have hpw : List.Pairwise (fun p q =>
      (∀ x y, jsTruthy ((jsTruthy p.doi).map normalizeDOI) = some x →
        jsTruthy ((jsTruthy q.doi).map normalizeDOI) = some y → x ≠ y) ∧
      (∀ x y, jsTruthy ((jsTruthy p.arxivId).map normalizeArxivId) = some x →
        jsTruthy ((jsTruthy q.arxivId).map normalizeArxivId) = some y → x ≠ y)) A :=
    (checkDuplicatesGo_key_facts existing θ batch [] [] []).2
  have hP := List.pairwise_iff_getElem.mp hpw
  have hndoi : ∀ p ∈ A, ∀ d, jsTruthy p.doi = some d →
      jsTruthy ((jsTruthy p.doi).map normalizeDOI) = some (normalizeDOI d) := by
    intro p hp d hd
    rcases hdoi p hp d hd with ⟨_, hnn, _⟩
    rw [hd, Option.map_some']
    rw [jsTruthy]
    rw [if_neg hnn]
  have hnarx : ∀ p ∈ A, jsTruthy p.doi = none → ∀ a, jsTruthy p.arxivId = some a →
      jsTruthy ((jsTruthy p.arxivId).map normalizeArxivId) = some (normalizeArxivId a) := by
    intro p hp hd a ha
    rcases harx p hp hd a ha with ⟨hdot, _, _⟩
    have hdotn := dot_mem_normalizeArxivId a hdot
    have hnn : normalizeArxivId a ≠ "" := by
      intro hc
      rw [hc] at hdotn
      cases hdotn
    rw [ha, Option.map_some']
    rw [jsTruthy]
    rw [if_neg hnn]
  have hcore : ∀ i j (hi : i < A.length) (hj : j < A.length), i < j →
      assignedId existing i A[i] ≠ assignedId existing j A[j] := by
    intro i j hi hj hij
    have hPij := hP i j hi hj hij
    have hmi : A[i] ∈ A := List.getElem_mem hi
    have hmj : A[j] ∈ A := List.getElem_mem hj
    cases hdi : jsTruthy A[i].doi with
    | some d1 =>
      rcases hdoi A[i] hmi d1 hdi with ⟨hs1, hnn1, _⟩
      cases hdj : jsTruthy A[j].doi with
      | some d2 =>
        rw [assignedId, assignedId, hdi, hdj]
        show d1 ≠ d2
        intro heq
        exact hPij.1 _ _ (hndoi A[i] hmi d1 hdi) (hndoi A[j] hmj d2 hdj) (by rw [heq])
      | none =>
        cases haj : jsTruthy A[j].arxivId with
        | some a2 =>
          rcases harx A[j] hmj hdj a2 haj with ⟨_, hns2, _⟩
          rw [assignedId, assignedId, hdi, hdj, haj]
          show d1 ≠ a2
          intro heq
          exact hns2 (heq ▸ hs1)
        | none =>
          rw [assignedId, assignedId, hdi, hdj, haj]
          show d1 ≠ natRepr (maxNumericId existing + 1 + j)
          intro heq
          have hgd := natRepr_all_digits (maxNumericId existing + 1 + j) '/' (heq ▸ hs1)
          simp [goodDigit] at hgd
    | none =>
      cases hai : jsTruthy A[i].arxivId with
      | some a1 =>
        rcases harx A[i] hmi hdi a1 hai with ⟨hdot1, hns1, _⟩
        cases hdj : jsTruthy A[j].doi with
        | some d2 =>
          rcases hdoi A[j] hmj d2 hdj with ⟨hs2, _, _⟩
          rw [assignedId, assignedId, hdi, hai, hdj]
          show a1 ≠ d2
          intro heq
          exact hns1 (heq.symm ▸ hs2)
        | none =>
          cases haj : jsTruthy A[j].arxivId with
          | some a2 =>
            rw [assignedId, assignedId, hdi, hai, hdj, haj]
            show a1 ≠ a2
            intro heq
            exact hPij.2 _ _ (hnarx A[i] hmi hdi a1 hai) (hnarx A[j] hmj hdj a2 haj)
              (by rw [heq])
          | none =>
            rw [assignedId, assignedId, hdi, hai, hdj, haj]
            show a1 ≠ natRepr (maxNumericId existing + 1 + j)
            intro heq
            have hgd := natRepr_all_digits (maxNumericId existing + 1 + j) '.' (heq ▸ hdot1)
            simp [goodDigit] at hgd
      | none =>
        cases hdj : jsTruthy A[j].doi with
        | some d2 =>
          rcases hdoi A[j] hmj d2 hdj with ⟨hs2, _, _⟩
          rw [assignedId, assignedId, hdi, hai, hdj]
          show natRepr (maxNumericId existing + 1 + i) ≠ d2
          intro heq
          have hgd := natRepr_all_digits (maxNumericId existing + 1 + i) '/' (heq.symm ▸ hs2)
          simp [goodDigit] at hgd
        | none =>
          cases haj : jsTruthy A[j].arxivId with
          | some a2 =>
            rcases harx A[j] hmj hdj a2 haj with ⟨hdot2, _, _⟩
            rw [assignedId, assignedId, hdi, hai, hdj, haj]
            show natRepr (maxNumericId existing + 1 + i) ≠ a2
            intro heq
            have hgd := natRepr_all_digits (maxNumericId existing + 1 + i) '.'
              (heq.symm ▸ hdot2)
            simp [goodDigit] at hgd
          | none =>
            rw [assignedId, assignedId, hdi, hai, hdj, haj]
            show natRepr (maxNumericId existing + 1 + i) ≠ natRepr (maxNumericId existing + 1 + j)
            intro heq
            have := natRepr_inj heq
            omega
  refine ⟨hnodup, ?_, ?_⟩
  · rw [assignIds_map_id]
    rw [List.mapIdx_eq_enum_map]
    show List.Pairwise (fun a b => a ≠ b) _
    rw [List.pairwise_map]
    rw [List.pairwise_iff_getElem]
    intro i j hi hj hij
    rw [List.getElem_enum, List.getElem_enum]
    have hi' : i < A.length := by simpa using hi
    have hj' : j < A.length := by simpa using hj
    exact hcore i j hi' hj' hij
  · intro s hs
    rw [assignIds_map_id, List.mapIdx_eq_enum_map]
    intro hmem
    rcases List.mem_iff_getElem.mp hmem with ⟨i, hi, hval⟩
    rw [List.getElem_map, List.getElem_enum] at hval
    simp only [Function.uncurry_apply_pair] at hval
    have hi' : i < A.length := by simpa using hi
    have hmi : A[i] ∈ A := List.getElem_mem hi'
    cases hdi : jsTruthy A[i].doi with
    | some d1 =>
      rcases hdoi A[i] hmi d1 hdi with ⟨_, _, hnotin⟩
      rw [assignedId, hdi] at hval
      have hval' : d1 = s := hval
      rw [hval'] at hnotin
      exact hnotin hs
    | none =>
      cases hai : jsTruthy A[i].arxivId with
      | some a1 =>
        rcases harx A[i] hmi hdi a1 hai with ⟨_, _, hnotin⟩
        rw [assignedId, hdi, hai] at hval
        have hval' : a1 = s := hval
        rw [hval'] at hnotin
        exact hnotin hs
      | none =>
        rw [assignedId, hdi, hai] at hval
        have hval' : natRepr (maxNumericId existing + 1 + i) = s := hval
        rcases List.mem_map.mp hs with ⟨p', hp', hpid⟩
        have hparse : jsParseInt p'.id = some ((maxNumericId existing + 1 + i : Nat) : Int) := by
          rw [hpid, ← hval']
          exact jsParseInt_natRepr _
        have hle := maxNumericId_ge existing p' hp' _ hparse
        omega

/-- The two id-collision fixture titles score 5/39, far below the 0.9
threshold, so the title rule does not fire between them. -/
theorem collision_similarity_value :
    calculateTitleSimilarity candIdCollision.title exIdCollision.title = 5 / 39 := by
  rw [calculateTitleSimilarity]
  rw [show normalizeTitle candIdCollision.title =
    "quantum chromodynamics on the lattice" from by decide]
  rw [show normalizeTitle exIdCollision.title =
    "a completely different subject entirely" from by decide]
  rw [if_neg (by decide)]
  rw [if_neg (by decide)]
  rw [show levenshteinDistance "quantum chromodynamics on the lattice".data
    "a completely different subject entirely".data = 34 from by
      set_option maxRecDepth 4000 in decide]
  rw [show ("quantum chromodynamics on the lattice".data).length = 37 from by decide]
  rw [show ("a completely different subject entirely".data).length = 39 from by decide]
  rw [show max 37 39 = 39 from rfl]
  norm_num

/-- Counterexample to C9 as stated: the candidate's DOI equals an existing
record's id while no deduplication rule fires (the record's own `doi` is
absent and the titles are dissimilar), so the candidate is accepted and
receives an id already present in the corpus — the appended corpus has a
duplicate id. -/
theorem claim_C9_counterexample :
    (checkDuplicates [candIdCollision] [exIdCollision] (9 / 10)).newPapers
        = [candIdCollision] ∧
    ¬ ((([exIdCollision] ++ assignIds [exIdCollision]
          (checkDuplicates [candIdCollision] [exIdCollision] (9 / 10)).newPapers
          ReadingStatus.toRead [] (fun _ => "uuid-0") "2024-01-01" 2024).map
        Paper.id).Nodup) := by
  have hsim : calculateTitleSimilarity candIdCollision.title exIdCollision.title = 5 / 39 :=
    collision_similarity_value
  have hd : jsTruthy candIdCollision.doi = some "10.1234/xyz" := by decide
  have ha : jsTruthy candIdCollision.arxivId = none := by decide
  have hdoiHit : List.find? (doiMatches (normalizeDOI "10.1234/xyz")) [exIdCollision]
      = none := by decide
  have hpred : (fun e => decide
      (calculateTitleSimilarity candIdCollision.title e.title ≥ (9 : Rat) / 10)) exIdCollision
      = false := by
    simp only [hsim, ge_iff_le, decide_eq_false_iff_not, not_le]
    norm_num
  have hfind : List.find? (fun e => decide
      (calculateTitleSimilarity candIdCollision.title e.title ≥ (9 : Rat) / 10))
      [exIdCollision] = none := by
    rw [List.find?_cons_of_neg _ (by simp [hpred])]
    rfl
  have hcheck : checkDuplicate candIdCollision [exIdCollision] (9 / 10) =
      ⟨false, none, none, none⟩ := by
    simp only [checkDuplicate, hd, ha, hdoiHit, hfind]
  have h1 : checkDuplicates [candIdCollision] [exIdCollision] (9 / 10) =
      ⟨[candIdCollision], []⟩ := by
    simp [checkDuplicates, checkDuplicatesGo, hcheck]
  rw [h1]
  exact ⟨rfl, by decide⟩

/-- Witness for the amended C9 on a concrete scenario: an empty corpus,
one candidate with a well-formed DOI and one with neither identifier; the
hypotheses are discharged concretely and the appended corpus has
pairwise-distinct ids. -/
theorem claim_C9_witness :
    (([] : List Paper).map Paper.id).Nodup ∧
    ((([] : List Paper) ++ assignIds []
        (checkDuplicates [candAttention, candScaling] [] (9 / 10)).newPapers
        ReadingStatus.toRead [] (fun _ => "uuid-0") "2024-01-01" 2024).map
      Paper.id).Nodup := by
  refine ⟨by decide, ?_⟩
  refine claim_C9_amended [] [candAttention, candScaling] (9 / 10)
    ReadingStatus.toRead [] (fun _ => "uuid-0") "2024-01-01" 2024 (by decide) ?_ ?_
  · intro p hp d hd
    have hnp : (checkDuplicates [candAttention, candScaling] [] (9 / 10)).newPapers
        = [candAttention, candScaling] := by decide
    rw [hnp] at hp
    rcases List.mem_cons.mp hp with rfl | hp
    · rw [show jsTruthy candAttention.doi =
        some "https://doi.org/10.48550/ARXIV.1706.03762" from by decide,
        Option.some.injEq] at hd
      subst hd
      refine ⟨by decide, by decide, by decide⟩
    · rcases List.mem_cons.mp hp with rfl | hp
      · rw [show jsTruthy candScaling.doi = none from by decide] at hd
        exact Option.noConfusion hd
      · exact absurd hp (List.not_mem_nil p)
  · intro p hp hdnone a ha
    have hnp : (checkDuplicates [candAttention, candScaling] [] (9 / 10)).newPapers
        = [candAttention, candScaling] := by decide
    rw [hnp] at hp
    rcases List.mem_cons.mp hp with rfl | hp
    · rw [show jsTruthy candAttention.doi =
        some "https://doi.org/10.48550/ARXIV.1706.03762" from by decide] at hdnone
      exact Option.noConfusion hdnone
    · rcases List.mem_cons.mp hp with rfl | hp
      · rw [show jsTruthy candScaling.arxivId = none from by decide] at ha
        exact Option.noConfusion ha
      · exact absurd hp (List.not_mem_nil p)

end PaperDB
